import Mathlib

/-
Verification of the poll-diff-sync engine of node-manta-dir-watcher
(lib/manta-dir-watcher.js, the full implementation with syncDir support).

The JavaScript source is shallowly embedded:
  * Manta dirents, local dirents, changes and events become structures;
  * the JS object used for `newState`/`oldState` (string keys, insertion
    order preserved, value assignment overwrites in place) becomes an
    association list with `alistSet`/`alistGet`;
  * each `vasync.pipeline` step of `MantaDirWatcher.prototype._poll`
    becomes a function; asynchronous collaborator calls (manta `ls`,
    `info`, `get`, local `fs` calls) are oracles packaged in `PollEnv`;
  * side effects (file removal, downloads, stream pushes, state commit,
    timer arming) are recorded in an explicit effect list;
  * a JS `TypeError` thrown from a callback (property access on
    `undefined`) is the `crashed` outcome, and a callback chain that can
    never call its continuation is the `hung` outcome.
-/

namespace MDW

/-- Remote directory entry as produced by one poll's Manta listing:
`{name, type, etag, mtime}` plus the `parent` dir path used to build the
full Manta path of the entry. -/
structure Dirent where
  name : String
  type : String
  etag : String
  mtime : String
  parent : String
deriving Repr, DecidableEq

/-- Result of `fs.lstat` as used by `firstRunLocalDirents`: only the size
and whether the entry is a directory are consulted. -/
structure Stat where
  size : Nat
  isDirectory : Bool
deriving Repr, DecidableEq

/-- Local dirent collected from the `syncDir` mirror directory on the
bootstrap poll: `{name, path, stat}`. -/
structure LocalDirent where
  name : String
  path : String
  stat : Stat
deriving Repr, DecidableEq

/-- Change action strings used by `changesFromDirents`. -/
inductive Action where
  | create
  | update
  | delete
deriving Repr, DecidableEq

/-- Change record pushed onto `arg.changes`: exactly the fields the JS
object literals carry (`dirent`, `oldDirent`, `oldLocalDirent` are each
present only on some variants, hence `Option`). -/
structure Change where
  action : Action
  dirent : Option Dirent := none
  oldDirent : Option Dirent := none
  oldLocalDirent : Option LocalDirent := none
deriving Repr, DecidableEq

/-- Externally visible event built by the `pushEvents` pipeline step. -/
structure Event where
  timeEvent : String
  action : Action
  name : String
  path : String
  mtime : Option String
deriving Repr, DecidableEq

/-- One emitted group `{events: [...]}`. -/
abbrev EventGroup := List Event

/-- The watcher state snapshot (`_state` / `newState` / `oldState`): a JS
object keyed by entry name, modelled as an insertion-ordered association
list. -/
abbrev Snapshot := List (String × Dirent)

/-- Key-presence test: truthiness of `obj[k]` for `Dirent` values. -/
def alistHas (s : Snapshot) (k : String) : Bool :=
  s.any (fun p => p.1 = k)

/-- Property assignment `obj[k] = v`: overwrites in place when the key is
present (JS objects keep the original insertion position), appends
otherwise. -/
def alistSet (s : Snapshot) (k : String) (v : Dirent) : Snapshot :=
  if alistHas s k then
    s.map (fun p => if p.1 = k then (k, v) else p)
  else
    s ++ [(k, v)]

/-- Property read `obj[k]`. -/
def alistGet (s : Snapshot) (k : String) : Option Dirent :=
  (s.find? (fun p => p.1 = k)).map (fun p => p.2)

/-- Iteration order of `Object.keys`. -/
def snapNames (s : Snapshot) : List String :=
  s.map (fun p => p.1)

/-- Path concatenation `dirent.parent + '/' + name` and
`mod_path.join(dir, name)` for the simple arguments this code passes. -/
def pathJoin (d n : String) : String := d ++ "/" ++ n

/-- Source function `diffDirents(a, b)`: collects differences over the
attributes `type` and `etag` (in that order) and returns them, or null
when the dirents agree on both. `mtime` is never consulted. -/
def diffDirents (a b : Dirent) : Option (List (String × String × String)) :=
  let diffs :=
    (if a.type ≠ b.type then [("type", a.type, b.type)] else [])
      ++ (if a.etag ≠ b.etag then [("etag", a.etag, b.etag)] else [])
  if diffs = [] then none else some diffs

/-- The `newState` object built by `listDir`: each filtered dirent is
assigned under its name, in listing order. -/
def buildNewState (dirents : List Dirent) : Snapshot :=
  dirents.foldl (fun st d => alistSet st d.name d) []

/-- First loop of the `arg.oldState` branch of `changesFromDirents`:
walk the new listing in order, pushing a create for unknown names and an
update when `diffDirents` reports a difference. -/
def createUpdatePass (oldState : Snapshot) : List Dirent → List Change
  | [] => []
  | d :: rest =>
    match alistGet oldState d.name with
    | none =>
      { action := .create, dirent := some d } :: createUpdatePass oldState rest
    | some old =>
      match diffDirents old d with
      | some _ =>
        { action := .update, dirent := some d, oldDirent := some old }
          :: createUpdatePass oldState rest
      | none => createUpdatePass oldState rest

/-- Second loop of the `arg.oldState` branch: for each `Object.keys`
entry of the old state absent from `newState`, push a delete. -/
def deletePass (oldState newState : Snapshot) : List Change :=
  (snapNames oldState).filterMap (fun n =>
    if alistHas newState n then none
    else (alistGet oldState n).map
      (fun od => { action := .delete, oldDirent := some od }))

/-- The whole `arg.oldState` branch of `changesFromDirents`: the
create/update pass over the listing, then the delete pass over the old
names. -/
def changesOldState (oldState : Snapshot) (dirents : List Dirent)
    (newState : Snapshot) : List Change :=
  createUpdatePass oldState dirents ++ deletePass oldState newState

/-- Lookup in the `localDirentFromName` map built from the bootstrap
mirror listing (names from `fs.readdir` are unique). -/
def localLookup (lds : List LocalDirent) (n : String) : Option LocalDirent :=
  lds.find? (fun ld => ld.name = n)

/-- First loop of the bootstrap (`syncDir`) branch of
`changesFromDirents`: a delete for each local dirent whose name is
missing from the new remote state, in local order. -/
def bootstrapDeletes (lds : List LocalDirent) (newState : Snapshot) :
    List Change :=
  lds.filterMap (fun ld =>
    if alistHas newState ld.name then none
    else some { action := .delete, oldLocalDirent := some ld })

/-- Second loop of the bootstrap branch: a create for each remote dirent
without a local counterpart, in listing order. -/
def bootstrapCreates (lds : List LocalDirent) (dirents : List Dirent) :
    List Change :=
  dirents.filterMap (fun d =>
    if (localLookup lds d.name).isSome then none
    else some { action := .create, dirent := some d })

/-- The `arg.possibleUpdates` names collected by the second bootstrap
loop: remote names that do have a local counterpart, in listing order. -/
def bootstrapPossibleUpdates (lds : List LocalDirent) (dirents : List Dirent) :
    List String :=
  dirents.filterMap (fun d =>
    if (localLookup lds d.name).isSome then some d.name else none)

/-- Errors a poll can abort with, identified by the collaborator call or
pipeline step that constructed them (the JS code propagates Error
objects; `guardTripped` is the configuration error built by
`firstRunSyncDeleteGuard`). -/
inductive PollErr where
  | lsErr (statusCode : Nat)
  | readdirErr (code : String)
  | lstatErr (msg : String)
  | infoErr (msg : String)
  | guardTripped (syncDir dir : String) (deleteNames : List String)
  | syncErr (msg : String)
  | rimrafErr (msg : String)
deriving Repr, DecidableEq

/-- Outcome of a pipeline step (or of the whole poll): success, an error
passed to the vasync callback, an uncaught JS exception escaping the
event loop, or a callback chain that never calls its continuation. -/
inductive StepRes (α : Type) where
  | ok (val : α)
  | errored (e : PollErr)
  | crashed
  | hung
deriving Repr, DecidableEq

/-- Observable side effects of one poll, in order of occurrence. -/
inductive Eff where
  | readMirrorDir (path : String)
  | infoCall (path : String)
  | mkdirpCall (path : String)
  | createTmp (path : String)
  | download (remotePath tmpPath : String)
  | renameCall (fromPath toPath : String)
  | rm (path : String)
  | pushGroup (events : List Event)
  | bufferGroup (events : List Event)
  | commitState (snapshot : Snapshot)
  | scheduleNextPoll (delayMs : Nat)
  | emitError (e : PollErr)
deriving Repr, DecidableEq

/-- Watcher configuration relevant to the poll pipeline (`opts.dir`,
`opts.filter`, `opts.syncDir`, `opts.syncDelete`,
`opts.disableSyncDeleteGuard`, `opts.dryRun`, the poll interval). The
name filter is the compiled RegExp test. -/
structure WatcherOpts where
  dir : String
  intervalMs : Nat
  filterType : Option String := none
  filterName : Option (String → Bool) := none
  syncDir : Option String := none
  syncDelete : Bool := false
  disableSyncDeleteGuard : Bool := false
  dryRun : Bool := false

/-- Mutable watcher fields touched by a poll: `_state`, `_lastPollTime`,
`_paused`, `_buffer`, and whether `_pollTimeout` is armed. -/
structure WatcherVars where
  state : Option Snapshot
  lastPollTime : Option Nat
  paused : Bool
  buffer : List EventGroup
  pollTimeoutArmed : Bool
deriving Repr, DecidableEq

/-- Result of `client.info` on a possible-update path. -/
structure RemoteInfo where
  size : Nat
  md5 : String
deriving Repr, DecidableEq

/-- Outcome of the `client.ls` listing call for this poll. -/
inductive LsOutcome where
  | ok (dirents : List Dirent)
  | err (statusCode : Nat)

/-- Outcome of `fs.readdir(syncDir)` for this poll. -/
inductive ReaddirOutcome where
  | ok (names : List String)
  | enoent
  | err (code : String)

/-- Oracles for every asynchronous collaborator call one poll can make,
plus the clock and the consumer's `push` return value. -/
structure PollEnv where
  ls : LsOutcome
  readdir : ReaddirOutcome
  lstat : String → Except String Stat
  info : String → Except String RemoteInfo
  localMd5 : String → String
  mkdirp : String → Except String Unit
  get : String → Except String Unit
  streamFinish : String → Bool
  rename : String → Except String Unit
  rimraf : String → Except String Unit
  now : Nat
  nowIso : String
  pushAccept : Bool

/-- Pipeline step `listDir`: a 404 from `client.ls` is treated as an
empty listing, any other listing error aborts the poll; dirents are
dropped by the type/name filters, the survivors populate `newState` and
`arg.dirents` in listing order. -/
def direntMatchesFilter (cfg : WatcherOpts) (d : Dirent) : Bool :=
  (match cfg.filterType with
   | some t => d.type = t
   | none => true)
  && (match cfg.filterName with
      | some test => test d.name
      | none => true)

def listDirStep (cfg : WatcherOpts) (env : PollEnv) :
    Except PollErr (List Dirent × Snapshot) :=
  match env.ls with
  | .err code =>
    if code = 404 then .ok ([], []) else .error (.lsErr code)
  | .ok raw =>
    let ds := raw.filter (direntMatchesFilter cfg)
    .ok (ds, buildNewState ds)

/-- The `vasync.forEachPipeline` over readdir names inside
`firstRunLocalDirents`: `fs.lstat` each joined path in order, aborting on
the first error, keeping non-directories as local dirents. -/
def lstatLoop (env : PollEnv) (sd : String) :
    List String → Except PollErr (List LocalDirent)
  | [] => .ok []
  | n :: rest =>
    match env.lstat (pathJoin sd n) with
    | .error msg => .error (.lstatErr msg)
    | .ok st =>
      match lstatLoop env sd rest with
      | .error e => .error e
      | .ok lds =>
        .ok (if st.isDirectory then lds
             else { name := n, path := pathJoin sd n, stat := st } :: lds)

/-- Pipeline step `firstRunLocalDirents`. The source guards it with
`if (!self.syncDir || self.oldState)`, but `oldState` is a field of the
per-poll context object, never of the watcher, so `self.oldState` is
always undefined: the step is skipped only when no `syncDir` is
configured and otherwise runs on every poll, first or not (the comment
above it in the source says it should run only on the first poll). An
ENOENT from `fs.readdir` leaves the local dirent list empty; any other
readdir error aborts the poll. The name filter is applied to the local
names exactly as to remote names. -/
def firstRunLocalDirentsStep (cfg : WatcherOpts) (env : PollEnv) :
    Except PollErr (List LocalDirent) × List Eff :=
  match cfg.syncDir with
  | none => (.ok [], [])
  | some sd =>
    match env.readdir with
    | .enoent => (.ok [], [.readMirrorDir sd])
    | .err code => (.error (.readdirErr code), [.readMirrorDir sd])
    | .ok names =>
      let kept :=
        match cfg.filterName with
        | some test => names.filter test
        | none => names
      (lstatLoop env sd kept, [.readMirrorDir sd])

/-- The `checkPossibleUpdate` pass of the bootstrap branch: for each
possible-update name in order, `client.info` the remote path (aborting
the poll on error), emit an update when the sizes differ, otherwise md5
the local file and emit an update only on digest mismatch. A missing
entry in `newState` or the local map would be a TypeError on undefined
(never reachable from the surrounding loops). -/
def checkPossibleUpdates (env : PollEnv) (sd : String) (newState : Snapshot)
    (lds : List LocalDirent) : List String → (StepRes (List Change) × List Eff)
  | [] => (.ok [], [])
  | n :: rest =>
    match alistGet newState n, localLookup lds n with
    | some d, some ld =>
      let path := pathJoin d.parent n
      match env.info path with
      | .error msg => (.errored (.infoErr msg), [.infoCall path])
      | .ok i =>
        let upd : List Change :=
          if i.size ≠ ld.stat.size then
            [{ action := .update, dirent := some d, oldLocalDirent := some ld }]
          else if env.localMd5 (pathJoin sd n) ≠ i.md5 then
            [{ action := .update, dirent := some d, oldLocalDirent := some ld }]
          else []
        match checkPossibleUpdates env sd newState lds rest with
        | (.ok cs, effs) => (.ok (upd ++ cs), .infoCall path :: effs)
        | (other, effs) => (other, .infoCall path :: effs)
    | _, _ => (.crashed, [])

/-- Pipeline step `changesFromDirents`: with an `oldState`, the pure
create/update and delete passes; without one but with a `syncDir`, the
bootstrap comparison against the local dirents (deletes, then creates,
then the possible-update checks), also yielding `arg.possibleUpdates`;
otherwise the silent initializing poll with no changes. -/
def changesFromDirentsStep (cfg : WatcherOpts) (env : PollEnv)
    (oldState : Option Snapshot) (dirents : List Dirent) (newState : Snapshot)
    (lds : List LocalDirent) :
    StepRes (List Change × Option (List String)) × List Eff :=
  match oldState with
  | some old => (.ok (changesOldState old dirents newState, none), [])
  | none =>
    match cfg.syncDir with
    | some sd =>
      let dels := bootstrapDeletes lds newState
      let creates := bootstrapCreates lds dirents
      let pu := bootstrapPossibleUpdates lds dirents
      match checkPossibleUpdates env sd newState lds pu with
      | (.ok upds, effs) => (.ok (dels ++ creates ++ upds, some pu), effs)
      | (.errored e, effs) => (.errored e, effs)
      | (.crashed, effs) => (.crashed, effs)
      | (.hung, effs) => (.hung, effs)
    | none => (.ok ([], none), [])

/-- The `deleteNames` collection loop of `firstRunSyncDeleteGuard`; a
delete change without `oldLocalDirent` would throw on
`ch.oldLocalDirent.name`. -/
def guardDeleteNames : List Change → StepRes (List String)
  | [] => .ok []
  | ch :: rest =>
    if ch.action = .delete then
      match ch.oldLocalDirent with
      | none => .crashed
      | some ld =>
        match guardDeleteNames rest with
        | .ok ns => .ok (ld.name :: ns)
        | other => other
    else guardDeleteNames rest

/-- Pipeline step `firstRunSyncDeleteGuard`: skipped unless a `syncDir`
is configured, `syncDelete` is set, the poll context has no `oldState`
and the guard was not disabled. It asserts `arg.possibleUpdates` is an
array (set by the bootstrap branch) and fails the poll with the
sync-delete-guard configuration error exactly when there are local
deletions pending and not a single name matched between the local and
remote dirs. -/
def firstRunSyncDeleteGuardStep (cfg : WatcherOpts) (oldState : Option Snapshot)
    (changes : List Change) (pu : Option (List String)) : StepRes Unit :=
  if cfg.syncDir = none ∨ cfg.syncDelete = false ∨ oldState.isSome
      ∨ cfg.disableSyncDeleteGuard then
    .ok ()
  else
    match pu with
    | none => .crashed
    | some pus =>
      match cfg.syncDir with
      | none => .ok ()
      | some sd =>
        match guardDeleteNames changes with
        | .ok deleteNames =>
          if deleteNames ≠ [] ∧ pus = [] then
            .errored (.guardTripped sd cfg.dir deleteNames)
          else .ok ()
        | .errored e => .errored e
        | .crashed => .crashed
        | .hung => .hung

/-- Temp download path used by `_syncDirent`:
`path.join(syncDir, '.' + name + '.mwatchdirpart')`. -/
def tmpPath (sd name : String) : String :=
  sd ++ "/." ++ name ++ ".mwatchdirpart"

/-- The `MantaDirWatcher.prototype._syncDirent` pipeline: mkdirp the sync
dir, download the remote object into the temp path, then rename the temp
file over the final local path; on a pipeline error the temp path is
rimraf-ed and the error is passed to the callback. The `downloadToTmpFile`
step opens the temp write stream and pipes `src` into it without ever
looking at the `err` argument of the `client.get` callback: a get error
leaves `src` undefined and `src.pipe(out)` throws out of the callback
(nothing is cleaned up, no error reaches the callback), and a source
stream that never finishes leaves the step waiting forever. -/
def syncDirent (env : PollEnv) (sd : String) (d : Dirent) :
    StepRes Unit × List Eff :=
  let tmp := tmpPath sd d.name
  let localPath := pathJoin sd d.name
  let remotePath := pathJoin d.parent d.name
  match env.mkdirp sd with
  | .error msg => (.errored (.syncErr msg), [.mkdirpCall sd, .rm tmp])
  | .ok _ =>
    match env.get remotePath with
    | .error _ => (.crashed, [.mkdirpCall sd, .createTmp tmp])
    | .ok _ =>
      if env.streamFinish remotePath then
        match env.rename localPath with
        | .error msg =>
          (.errored (.syncErr msg),
           [.mkdirpCall sd, .createTmp tmp, .download remotePath tmp,
            .renameCall tmp localPath, .rm tmp])
        | .ok _ =>
          (.ok (),
           [.mkdirpCall sd, .createTmp tmp, .download remotePath tmp,
            .renameCall tmp localPath])
      else (.hung, [.mkdirpCall sd, .createTmp tmp, .download remotePath tmp])

/-- The `vasync.forEachPipeline` body of `syncChanges`: create and update
changes go through `_syncDirent`; delete changes, when `syncDelete` is
set, rimraf `oldDirent.parent + '/' + oldDirent.name` when the change
came from an old snapshot (a Manta path string, not a path under
`syncDir`) and `oldLocalDirent.path` when it came from the bootstrap
comparison. The loop stops at the first failing change. -/
def syncChangeLoop (cfg : WatcherOpts) (env : PollEnv) (sd : String) :
    List Change → StepRes Unit × List Eff
  | [] => (.ok (), [])
  | ch :: rest =>
    match ch.action with
    | .create | .update =>
      match ch.dirent with
      | none => (.crashed, [])
      | some d =>
        match syncDirent env sd d with
        | (.ok _, effs) =>
          match syncChangeLoop cfg env sd rest with
          | (r, effs2) => (r, effs ++ effs2)
        | (other, effs) => (other, effs)
    | .delete =>
      if cfg.syncDelete then
        match ch.oldDirent with
        | some od =>
          let lp := pathJoin od.parent od.name
          match env.rimraf lp with
          | .error msg => (.errored (.rimrafErr msg), [.rm lp])
          | .ok _ =>
            match syncChangeLoop cfg env sd rest with
            | (r, effs2) => (r, .rm lp :: effs2)
        | none =>
          match ch.oldLocalDirent with
          | some ld =>
            match env.rimraf ld.path with
            | .error msg => (.errored (.rimrafErr msg), [.rm ld.path])
            | .ok _ =>
              match syncChangeLoop cfg env sd rest with
              | (r, effs2) => (r, .rm ld.path :: effs2)
          | none => (.crashed, [])
      else syncChangeLoop cfg env sd rest

/-- Pipeline step `syncChanges`: a no-op without a `syncDir` or in dry
run, otherwise the change loop above. -/
def syncChangesStep (cfg : WatcherOpts) (env : PollEnv)
    (changes : List Change) : StepRes Unit × List Eff :=
  match cfg.syncDir with
  | none => (.ok (), [])
  | some sd =>
    if cfg.dryRun then (.ok (), [])
    else syncChangeLoop cfg env sd changes

/-- The identity source of a change in `pushEvents`:
`change.dirent || change.oldDirent || change.oldLocalDirent`, of which
only the `name` is read. -/
def changeName (ch : Change) : Option String :=
  match ch.dirent with
  | some d => some d.name
  | none =>
    match ch.oldDirent with
    | some d => some d.name
    | none => ch.oldLocalDirent.map (fun ld => ld.name)

/-- The event-building loop of `pushEvents`: one event per change, in
change order, with `path = self.dir + '/' + name` and, for creates and
updates, `mtime = change.dirent.mtime` (a TypeError if such a change had
no `dirent`). -/
def eventsFromChanges (cfg : WatcherOpts) (t : String) :
    List Change → StepRes (List Event)
  | [] => .ok []
  | ch :: rest =>
    match changeName ch with
    | none => .crashed
    | some name =>
      match ch.action, ch.dirent with
      | .delete, _ =>
        match eventsFromChanges cfg t rest with
        | .ok evs =>
          .ok ({ timeEvent := t, action := .delete, name := name,
                 path := pathJoin cfg.dir name, mtime := none } :: evs)
        | other => other
      | _, none => .crashed
      | a, some d =>
        match eventsFromChanges cfg t rest with
        | .ok evs =>
          .ok ({ timeEvent := t, action := a, name := name,
                 path := pathJoin cfg.dir name, mtime := some d.mtime } :: evs)
        | other => other

/-- Pipeline step `pushEvents`: build the events, and when there are any,
push the `{events}` group downstream, buffering it instead while paused,
and pausing (which also clears the poll timer) when `push` returns
false. -/
def pushEventsStep (cfg : WatcherOpts) (env : PollEnv) (w : WatcherVars)
    (changes : List Change) : StepRes Unit × List Eff × WatcherVars :=
  match eventsFromChanges cfg env.nowIso changes with
  | .ok events =>
    if events = [] then (.ok (), [], w)
    else if w.paused then
      (.ok (), [.bufferGroup events], { w with buffer := w.buffer ++ [events] })
    else if env.pushAccept then (.ok (), [.pushGroup events], w)
    else
      (.ok (), [.pushGroup events],
       { w with paused := true, pollTimeoutArmed := false })
  | .errored e => (.errored e, [], w)
  | .crashed => (.crashed, [], w)
  | .hung => (.hung, [], w)

/-- Pipeline step `saveStateAndScheduleNextPoll`: commit `newState` as
the watcher state, record the completion time, and, unless paused, arm
the next poll timer for the full interval. -/
def saveStateStep (cfg : WatcherOpts) (env : PollEnv) (w : WatcherVars)
    (newState : Snapshot) : List Eff × WatcherVars :=
  let w1 := { w with state := some newState, lastPollTime := some env.now }
  if w1.paused then ([.commitState newState], w1)
  else
    ([.commitState newState, .scheduleNextPoll cfg.intervalMs],
     { w1 with pollTimeoutArmed := true })

/-- Result of one `_poll` run: the outcome reported to `finishPoll`, the
ordered effect trace, and the watcher fields afterwards. -/
structure PollResult where
  outcome : StepRes Unit
  effects : List Eff
  vars : WatcherVars
deriving Repr, DecidableEq

/-- The whole `MantaDirWatcher.prototype._poll` vasync pipeline:
`listDir`, `firstRunLocalDirents`, `changesFromDirents`,
`firstRunSyncDeleteGuard`, `syncChanges`, `pushEvents`,
`saveStateAndScheduleNextPoll`, with `finishPoll` emitting any pipeline
error on the watcher's error channel. The poll context's `oldState` is
the watcher's `_state` at entry; watcher fields are only written by the
last two steps. -/
def pollPipeline (cfg : WatcherOpts) (env : PollEnv) (w : WatcherVars) :
    PollResult :=
  match listDirStep cfg env with
  | .error e => { outcome := .errored e, effects := [.emitError e], vars := w }
  | .ok (dirents, newState) =>
    match firstRunLocalDirentsStep cfg env with
    | (.error e, effs1) =>
      { outcome := .errored e, effects := effs1 ++ [.emitError e], vars := w }
    | (.ok lds, effs1) =>
      match changesFromDirentsStep cfg env w.state dirents newState lds with
      | (.errored e, effs2) =>
        { outcome := .errored e, effects := effs1 ++ effs2 ++ [.emitError e],
          vars := w }
      | (.crashed, effs2) =>
        { outcome := .crashed, effects := effs1 ++ effs2, vars := w }
      | (.hung, effs2) =>
        { outcome := .hung, effects := effs1 ++ effs2, vars := w }
      | (.ok (changes, pu), effs2) =>
        match firstRunSyncDeleteGuardStep cfg w.state changes pu with
        | .errored e =>
          { outcome := .errored e, effects := effs1 ++ effs2 ++ [.emitError e],
            vars := w }
        | .crashed =>
          { outcome := .crashed, effects := effs1 ++ effs2, vars := w }
        | .hung =>
          { outcome := .hung, effects := effs1 ++ effs2, vars := w }
        | .ok _ =>
          match syncChangesStep cfg env changes with
          | (.errored e, effs3) =>
            { outcome := .errored e,
              effects := effs1 ++ effs2 ++ effs3 ++ [.emitError e], vars := w }
          | (.crashed, effs3) =>
            { outcome := .crashed, effects := effs1 ++ effs2 ++ effs3,
              vars := w }
          | (.hung, effs3) =>
            { outcome := .hung, effects := effs1 ++ effs2 ++ effs3, vars := w }
          | (.ok _, effs3) =>
            match pushEventsStep cfg env w changes with
            | (.errored e, effs4, _) =>
              { outcome := .errored e,
                effects := effs1 ++ effs2 ++ effs3 ++ effs4 ++ [.emitError e],
                vars := w }
            | (.crashed, effs4, _) =>
              { outcome := .crashed,
                effects := effs1 ++ effs2 ++ effs3 ++ effs4, vars := w }
            | (.hung, effs4, _) =>
              { outcome := .hung,
                effects := effs1 ++ effs2 ++ effs3 ++ effs4, vars := w }
            | (.ok _, effs4, w4) =>
              match saveStateStep cfg env w4 newState with
              | (effs5, w5) =>
                { outcome := .ok (),
                  effects := effs1 ++ effs2 ++ effs3 ++ effs4 ++ effs5,
                  vars := w5 }

/-
Event-loop scheduler model. One poll pipeline is non-atomic: `_poll`
returns right after issuing the listing call, and the pipeline stays in
flight until `finishPoll` runs. The machine tracks the scheduler-visible
watcher state: `_paused`, whether the `_pollTimeout` field holds a handle
(a fired timeout leaves its stale handle in the field, since `_poll`
never clears it), whether an armed timeout is still pending, how many
`setImmediate(_poll)` callbacks are queued, and how many poll pipelines
are in flight.
-/

/-- Scheduler-visible state of the watcher. -/
structure SchedState where
  paused : Bool
  timerField : Bool
  timerPending : Bool
  immediateQueued : Nat
  inFlight : Nat
deriving Repr, DecidableEq

/-- Scheduler interactions: a downstream read (`_read` calling `_resume`,
with `elapsed` telling whether `timeToNextPoll` came out non-positive), a
`poke()`, the event loop firing an armed timeout or a queued immediate
(each of which begins a `_poll` pipeline), and a pipeline reaching
`finishPoll` (with or without an error; only a successful poll reaches
`saveStateAndScheduleNextPoll`). -/
inductive SchedAct where
  | read (elapsed : Bool)
  | poke
  | fireTimer
  | fireImmediate
  | completePoll (success : Bool)
deriving Repr, DecidableEq

/-- One scheduler transition; `none` when the action is not enabled (no
pending timeout or queued immediate to fire, no pipeline to complete).
Mirrors `_resume` (early return unless paused; then either a
`setImmediate` poll or an armed timer when no `_pollTimeout` handle is
present), `poke` (clear and null any timeout, queue an immediate poll,
unconditionally), `_poll` (begins a pipeline with no in-flight check) and
`saveStateAndScheduleNextPoll` (arm the interval timer unless paused). -/
def schedStep (s : SchedState) : SchedAct → Option SchedState
  | .read elapsed =>
    if ¬s.paused then some s
    else
      let s1 := { s with paused := false }
      if s1.timerField then some s1
      else if elapsed then
        some { s1 with immediateQueued := s1.immediateQueued + 1 }
      else some { s1 with timerField := true, timerPending := true }
  | .poke =>
    some { s with timerField := false, timerPending := false,
                  immediateQueued := s.immediateQueued + 1 }
  | .fireTimer =>
    if s.timerPending then
      some { s with timerPending := false, inFlight := s.inFlight + 1 }
    else none
  | .fireImmediate =>
    if s.immediateQueued > 0 then
      some { s with immediateQueued := s.immediateQueued - 1,
                    inFlight := s.inFlight + 1 }
    else none
  | .completePoll success =>
    if s.inFlight > 0 then
      if success ∧ ¬s.paused then
        some { s with inFlight := s.inFlight - 1, timerField := true,
                      timerPending := true }
      else some { s with inFlight := s.inFlight - 1 }
    else none

/-- Run a sequence of scheduler interactions. -/
def schedRun (s : SchedState) : List SchedAct → Option SchedState
  | [] => some s
  | a :: rest =>
    match schedStep s a with
    | none => none
    | some s1 => schedRun s1 rest

/-- Watcher scheduler state right after construction: paused, no timer,
nothing queued, nothing in flight. -/
def schedInit : SchedState :=
  { paused := true, timerField := false, timerPending := false,
    immediateQueued := 0, inFlight := 0 }

/-
Backpressure buffer model. Groups produced by polls while the consumer
is not ready are appended to `_buffer`; `_resume` flushes the buffer to
the consumer in order. `delivered` is the history of groups the consumer
has received, in order.
-/

/-- Consumer-visible flow-control state. -/
structure FlowState where
  paused : Bool
  timerField : Bool
  buffer : List EventGroup
  delivered : List EventGroup
deriving Repr, DecidableEq

/-- The flush loop of `_resume`: shift groups off the buffer and push
each one downstream; `accepts` lists the successive return values of
`this.push` (true when exhausted). Returns the groups delivered, the
groups still buffered, and whether the flush stopped on backpressure.
The group whose push returned false has still been delivered. -/
def flushLoop : List EventGroup → List Bool →
    List EventGroup × List EventGroup × Bool
  | [], _ => ([], [], false)
  | g :: rest, accepts =>
    if accepts.headD true then
      match flushLoop rest accepts.tail with
      | (d, r, stopped) => (g :: d, r, stopped)
    else ([g], rest, true)

/-- The `_resume` flow-control behavior: a no-op unless paused; otherwise
unpause and flush the buffer, and either re-pause (clearing the poll
timer via `_pause`) when a push returned false, or fall through to the
resume-polling block, which leaves a poll scheduled (timer or
immediate). -/
def resumeFlow (s : FlowState) (accepts : List Bool) : FlowState :=
  if ¬s.paused then s
  else
    match flushLoop s.buffer accepts with
    | (d, r, stopped) =>
      if stopped then
        { paused := true, timerField := false, buffer := r,
          delivered := s.delivered ++ d }
      else
        { paused := false, timerField := true, buffer := r,
          delivered := s.delivered ++ d }

/-- The delivery behavior of the `pushEvents` step for one produced
group: buffered while paused, otherwise pushed to the consumer at once,
pausing (and clearing the timer) when the push reports backpressure. -/
def produceFlow (s : FlowState) (g : EventGroup) (accept : Bool) : FlowState :=
  if s.paused then { s with buffer := s.buffer ++ [g] }
  else if accept then { s with delivered := s.delivered ++ [g] }
  else
    { s with delivered := s.delivered ++ [g], paused := true,
             timerField := false }

/-- External flow-control interactions: a downstream read (resume with
the consumer's successive push results) or a poll producing one event
group (with the consumer's push result, consulted only if unpaused). -/
inductive FlowOp where
  | read (accepts : List Bool)
  | produce (g : EventGroup) (accept : Bool)

/-- One flow-control transition. -/
def flowStep (s : FlowState) : FlowOp → FlowState
  | .read accepts => resumeFlow s accepts
  | .produce g accept => produceFlow s g accept

/-- Run a sequence of flow-control interactions. -/
def flowRun (s : FlowState) : List FlowOp → FlowState
  | [] => s
  | op :: rest => flowRun (flowStep s op) rest

/-- The groups produced across a sequence of interactions, in production
order. -/
def producedGroups : List FlowOp → List EventGroup
  | [] => []
  | .read _ :: rest => producedGroups rest
  | .produce g _ :: rest => g :: producedGroups rest

/-- Flow-control state right after construction: paused with an empty
buffer and nothing delivered. -/
def flowInit : FlowState :=
  { paused := true, timerField := false, buffer := [], delivered := [] }

/-
Concrete fixtures used to evaluate the model at specific inputs
(counterexamples and witnesses).
-/

/-- A remote object dirent `a` under the watched dir `/r`. -/
def dA : Dirent :=
  { name := "a", type := "object", etag := "e", mtime := "t", parent := "/r" }

/-- The dirent of `a.txt` under the watched dir `/user/stor/watched`. -/
def dAtxt : Dirent :=
  { name := "a.txt", type := "object", etag := "E1", mtime := "M1",
    parent := "/user/stor/watched" }

/-- An environment in which every collaborator call succeeds blandly. -/
def baseEnv : PollEnv :=
  { ls := .ok [], readdir := .enoent,
    lstat := fun _ => .ok { size := 1, isDirectory := false },
    info := fun _ => .error "unused",
    localMd5 := fun _ => "md5",
    mkdirp := fun _ => .ok (),
    get := fun _ => .ok (),
    streamFinish := fun _ => true,
    rename := fun _ => .ok (),
    rimraf := fun _ => .ok (),
    now := 0, nowIso := "T", pushAccept := true }

/-- A watcher before its first poll, flowing (not paused). -/
def wFresh : WatcherVars :=
  { state := none, lastPollTime := none, paused := false, buffer := [],
    pollTimeoutArmed := false }

/-- A watcher before its first poll, paused. -/
def wFreshPaused : WatcherVars :=
  { state := none, lastPollTime := none, paused := true, buffer := [],
    pollTimeoutArmed := false }

/-- Guard scenario configuration: watch `/r`, mirror to `/m` with
destructive deletion enabled, guard active. -/
def cfgGuard : WatcherOpts :=
  { dir := "/r", intervalMs := 5000, syncDir := some "/m",
    syncDelete := true }

/-- Guard scenario environment: the remote listing has the single entry
`a`, the mirror holds the three unrelated files `x`, `y`, `z`. -/
def envGuard : PollEnv :=
  { baseEnv with ls := .ok [dA], readdir := .ok ["x", "y", "z"] }

/-- Bootstrap-ordering scenario: mirror configured (dry run, no
deletion), mirror holds `z`, remote holds `a`. -/
def cfgBootOrder : WatcherOpts :=
  { dir := "/r", intervalMs := 5000, syncDir := some "/m", dryRun := true }

/-- Environment for the bootstrap-ordering scenario. -/
def envBootOrder : PollEnv :=
  { baseEnv with ls := .ok [dA], readdir := .ok ["z"] }

/-- Plain watch configuration without a mirror. -/
def cfgPlain : WatcherOpts := { dir := "/r", intervalMs := 5000 }

/-- Environment whose listing fails with a 500. -/
def envLs500 : PollEnv := { baseEnv with ls := .err 500 }

/-- Environment whose listing succeeds with the single entry `a`. -/
def envLsA : PollEnv := { baseEnv with ls := .ok [dA] }

/-- Not-found scenario configuration: mirror to `/local/mirror` with
destructive deletion enabled. -/
def cfgNotFound : WatcherOpts :=
  { dir := "/user/stor/watched", intervalMs := 60000,
    syncDir := some "/local/mirror", syncDelete := true }

/-- Not-found scenario environment: the listing 404s. -/
def envNotFound : PollEnv :=
  { baseEnv with ls := .err 404, nowIso := "T7", now := 7 }

/-- Watcher that has committed the snapshot holding `a.txt`, paused. -/
def wWithSnap : WatcherVars :=
  { state := some [("a.txt", dAtxt)], lastPollTime := some 100,
    paused := true, buffer := [], pollTimeoutArmed := false }

/-- Mirror-read scenario: mirror configured, prior snapshot committed,
mirror dir readable. -/
def cfgMirror : WatcherOpts :=
  { dir := "/user/stor/watched", intervalMs := 60000,
    syncDir := some "/local/mirror" }

/-- Environment for the mirror-read scenario: listing succeeds with the
unchanged entry, the mirror dir lists one file. -/
def envMirrorRead : PollEnv :=
  { baseEnv with ls := .ok [dAtxt], readdir := .ok ["b"] }

/-- Environment in which the download of any remote object fails. -/
def envGetErr : PollEnv := { baseEnv with get := fun _ => .error "econnreset" }

/-- Environment in which every rename fails. -/
def envRenameErr : PollEnv := { baseEnv with rename := fun _ => .error "eperm" }

/-- Environment in which the download stream never finishes. -/
def envStreamStall : PollEnv := { baseEnv with streamFinish := fun _ => false }

/-- The delete event the not-found scenario produces for `a.txt`. -/
def evDelAtxt : Event :=
  { timeEvent := "T7", action := .delete, name := "a.txt",
    path := "/user/stor/watched/a.txt", mtime := none }

/-- An event used in flow-control fixtures. -/
def evA : Event :=
  { timeEvent := "T", action := .create, name := "a", path := "/r/a",
    mtime := some "t" }

/-- A second event used in flow-control fixtures. -/
def evB : Event :=
  { timeEvent := "T", action := .create, name := "b", path := "/r/b",
    mtime := some "t" }

/-- A flow-control state holding two buffered groups, paused. -/
def flowTwoBuffered : FlowState :=
  { paused := true, timerField := true, buffer := [[evA], [evB]],
    delivered := [] }

/-- Classifier for the only effect `firstRunLocalDirents` produces. -/
def isReadMirrorEff : Eff → Bool
  | .readMirrorDir _ => true
  | _ => false

/-- Classifier for the only effect the possible-update checks produce. -/
def isInfoEff : Eff → Bool
  | .infoCall _ => true
  | _ => false

/-- Classifier for the effects the sync step can produce. -/
def isSyncEff : Eff → Bool
  | .mkdirpCall _ => true
  | .createTmp _ => true
  | .download _ _ => true
  | .renameCall _ _ => true
  | .rm _ => true
  | _ => false

/-- Classifier for the effects the push step can produce. -/
def isDeliveryEff : Eff → Bool
  | .pushGroup _ => true
  | .bufferGroup _ => true
  | _ => false

/-
Helper lemmas about the association-list snapshot and the diff passes.
-/

theorem diffDirents_eq_none_iff (a b : Dirent) :
    diffDirents a b = none ↔ a.type = b.type ∧ a.etag = b.etag := by
  unfold diffDirents
  by_cases ht : a.type = b.type <;> by_cases he : a.etag = b.etag <;>
    simp [ht, he]

theorem diffDirents_self (a : Dirent) : diffDirents a a = none := by
  simp [diffDirents]

theorem alistHas_eq_true_iff (s : Snapshot) (n : String) :
    alistHas s n = true ↔ n ∈ snapNames s := by
  simp [alistHas, snapNames, List.any_eq_true, List.mem_map]

theorem map_fst_keep (s : Snapshot) (k : String) (v : Dirent) :
    List.map Prod.fst (s.map (fun p => if p.1 = k then (k, v) else p))
      = List.map Prod.fst s := by
  induction s with
  | nil => rfl
  | cons p rest ih =>
    by_cases h : p.1 = k <;> simp [h, ih]

theorem snapNames_alistSet (s : Snapshot) (k : String) (v : Dirent) :
    snapNames (alistSet s k v)
      = if alistHas s k then snapNames s else snapNames s ++ [k] := by
  unfold alistSet
  by_cases h : alistHas s k <;> simp [h, snapNames, map_fst_keep]
  intro a b _
  by_cases hak : a = k <;> simp [hak]

theorem mem_snapNames_alistSet (s : Snapshot) (k : String) (v : Dirent)
    (n : String) :
    n ∈ snapNames (alistSet s k v) ↔ n ∈ snapNames s ∨ n = k := by
  rw [snapNames_alistSet]
  by_cases h : alistHas s k
  · have hk : k ∈ snapNames s := (alistHas_eq_true_iff s k).mp h
    have hnk : n = k → n ∈ snapNames s := fun e => e ▸ hk
    simp [h]
    tauto
  · simp [h]

theorem mem_snapNames_buildAux (ds : List Dirent) :
    ∀ (acc : Snapshot) (n : String),
      n ∈ snapNames (ds.foldl (fun st d => alistSet st d.name d) acc)
        ↔ n ∈ snapNames acc ∨ n ∈ ds.map Dirent.name := by
  induction ds with
  | nil => intro acc n; simp
  | cons d rest ih =>
    intro acc n
    rw [List.foldl_cons, ih, mem_snapNames_alistSet]
    simp
    tauto

theorem mem_snapNames_buildNewState (ds : List Dirent) (n : String) :
    n ∈ snapNames (buildNewState ds) ↔ n ∈ ds.map Dirent.name := by
  unfold buildNewState
  rw [mem_snapNames_buildAux]
  simp [snapNames]

theorem build_foldl_eq_append (ds : List Dirent) :
    ∀ acc : Snapshot, (∀ d ∈ ds, d.name ∉ snapNames acc) →
      (ds.map Dirent.name).Nodup →
      ds.foldl (fun st d => alistSet st d.name d) acc
        = acc ++ ds.map (fun d => (d.name, d)) := by
  induction ds with
  | nil => intro acc _ _; simp
  | cons d rest ih =>
    intro acc hdisj hnd
    have hhas : alistHas acc d.name = false := by
      cases hb : alistHas acc d.name
      · rfl
      · exact absurd ((alistHas_eq_true_iff _ _).mp hb)
          (hdisj d (List.mem_cons_self d rest))
    have hset : alistSet acc d.name d = acc ++ [(d.name, d)] := by
      unfold alistSet
      rw [hhas]
      simp
    rw [List.foldl_cons, hset, ih (acc ++ [(d.name, d)])]
    · simp
    · intro d2 hd2
      rw [snapNames, List.map_append]
      simp only [List.mem_append]
      rintro (hmem | hmem)
      · exact hdisj d2 (List.mem_cons_of_mem d hd2) hmem
      · have hne : d2.name ≠ d.name := by
          intro he
          have : d.name ∈ rest.map Dirent.name := by
            rw [← he]
            exact List.mem_map_of_mem Dirent.name hd2
          rw [List.map_cons] at hnd
          exact (List.nodup_cons.mp hnd).1 this
        simp [snapNames] at hmem
        exact hne hmem
    · rw [List.map_cons] at hnd
      exact (List.nodup_cons.mp hnd).2

theorem buildNewState_eq_map (ds : List Dirent)
    (hnd : (ds.map Dirent.name).Nodup) :
    buildNewState ds = ds.map (fun d => (d.name, d)) := by
  unfold buildNewState
  rw [build_foldl_eq_append ds [] (by intro d _ h; simp [snapNames] at h) hnd]
  simp

theorem alistGet_map_pair (ds : List Dirent)
    (hnd : (ds.map Dirent.name).Nodup) :
    ∀ d ∈ ds, alistGet (ds.map (fun d => (d.name, d))) d.name = some d := by
  induction ds with
  | nil => intro d hd; cases hd
  | cons d0 rest ih =>
    intro d hd
    rw [List.map_cons] at hnd
    by_cases hn : d0.name = d.name
    · have hdd : d = d0 := by
        rcases List.mem_cons.mp hd with he | hmem
        · exact he
        · exact absurd (hn ▸ List.mem_map_of_mem Dirent.name hmem)
            (List.nodup_cons.mp hnd).1
      subst hdd
      unfold alistGet
      simp [List.find?]
    · have hmem : d ∈ rest := by
        rcases List.mem_cons.mp hd with he | hmem
        · exact absurd (he ▸ rfl) hn
        · exact hmem
      have hrec := ih (List.nodup_cons.mp hnd).2 d hmem
      unfold alistGet at hrec ⊢
      rw [List.map_cons]
      simp only [List.find?]
      rw [show (decide ((d0.name, d0).1 = d.name)) = false from by simp [hn]]
      exact hrec

theorem alistGet_buildNewState (ds : List Dirent)
    (hnd : (ds.map Dirent.name).Nodup) :
    ∀ d ∈ ds, alistGet (buildNewState ds) d.name = some d := by
  rw [buildNewState_eq_map ds hnd]
  exact alistGet_map_pair ds hnd

theorem alistGet_of_mem_names (s : Snapshot) (n : String)
    (hwf : ∀ p ∈ s, (p.2).name = p.1) (hmem : n ∈ snapNames s) :
    ∃ od, alistGet s n = some od ∧ od.name = n := by
  have hsome : (s.find? (fun p => p.1 = n)).isSome := by
    rw [List.find?_isSome]
    simp only [snapNames, List.mem_map] at hmem
    obtain ⟨p, hp, he⟩ := hmem
    exact ⟨p, hp, by simp [he]⟩
  obtain ⟨q, hq⟩ := Option.isSome_iff_exists.mp hsome
  have hpred := List.find?_some hq
  simp at hpred
  have hqmem : q ∈ s := List.mem_of_find?_eq_some hq
  refine ⟨q.2, ?_, ?_⟩
  · unfold alistGet
    rw [hq]
    rfl
  · rw [hwf q hqmem]
    exact hpred

theorem cuPass_filter_create (old : Snapshot) (ds : List Dirent) :
    (createUpdatePass old ds).filter (fun c => c.action = Action.create)
      = (ds.filter (fun d => (alistGet old d.name).isNone)).map
          (fun d => { action := .create, dirent := some d }) := by
  induction ds with
  | nil => rfl
  | cons d rest ih =>
    cases hg : alistGet old d.name with
    | none => simp [createUpdatePass, hg, ih, List.filter_cons]
    | some od =>
      cases hdf : diffDirents od d with
      | none => simp [createUpdatePass, hg, hdf, ih, List.filter_cons]
      | some df => simp [createUpdatePass, hg, hdf, ih, List.filter_cons]

theorem cuPass_filter_update (old : Snapshot) (ds : List Dirent) :
    (createUpdatePass old ds).filter (fun c => c.action = Action.update)
      = ds.filterMap (fun d =>
          match alistGet old d.name with
          | none => none
          | some od =>
            if od.type = d.type ∧ od.etag = d.etag then none
            else some { action := .update, dirent := some d,
                        oldDirent := some od }) := by
  induction ds with
  | nil => rfl
  | cons d rest ih =>
    cases hg : alistGet old d.name with
    | none => simp [createUpdatePass, hg, ih, List.filter_cons, List.filterMap_cons]
    | some od =>
      cases hdf : diffDirents od d with
      | none =>
        have heq : od.type = d.type ∧ od.etag = d.etag :=
          (diffDirents_eq_none_iff od d).mp hdf
        simp [createUpdatePass, hg, hdf, ih, List.filter_cons,
          List.filterMap_cons, heq]
      | some df =>
        have hne : ¬(od.type = d.type ∧ od.etag = d.etag) := by
          intro hc
          rw [(diffDirents_eq_none_iff od d).mpr hc] at hdf
          cases hdf
        simp [createUpdatePass, hg, hdf, ih, List.filter_cons,
          List.filterMap_cons, hne]

theorem cuPass_actions (old : Snapshot) (ds : List Dirent) :
    ∀ c ∈ createUpdatePass old ds,
      c.action = Action.create ∨ c.action = Action.update := by
  induction ds with
  | nil => intro c hc; cases hc
  | cons d rest ih =>
    intro c hc
    cases hg : alistGet old d.name with
    | none =>
      simp only [createUpdatePass, hg] at hc
      rcases List.mem_cons.mp hc with he | hmem
      · left; rw [he]
      · exact ih c hmem
    | some od =>
      cases hdf : diffDirents od d with
      | none =>
        simp only [createUpdatePass, hg, hdf] at hc
        exact ih c hc
      | some df =>
        simp only [createUpdatePass, hg, hdf] at hc
        rcases List.mem_cons.mp hc with he | hmem
        · right; rw [he]
        · exact ih c hmem

theorem cuPass_mem_structure (old : Snapshot) (ds : List Dirent) :
    ∀ c ∈ createUpdatePass old ds,
      ∃ d ∈ ds, changeName c = some d.name ∧
        (alistGet old d.name = none ∨
          ∃ od, alistGet old d.name = some od ∧ diffDirents od d ≠ none) := by
  induction ds with
  | nil => intro c hc; cases hc
  | cons d rest ih =>
    intro c hc
    cases hg : alistGet old d.name with
    | none =>
      simp only [createUpdatePass, hg] at hc
      rcases List.mem_cons.mp hc with he | hmem
      · exact ⟨d, List.mem_cons_self d rest, by rw [he]; rfl, Or.inl hg⟩
      · obtain ⟨d2, hd2, hn, hcase⟩ := ih c hmem
        exact ⟨d2, List.mem_cons_of_mem d hd2, hn, hcase⟩
    | some od =>
      cases hdf : diffDirents od d with
      | none =>
        simp only [createUpdatePass, hg, hdf] at hc
        obtain ⟨d2, hd2, hn, hcase⟩ := ih c hc
        exact ⟨d2, List.mem_cons_of_mem d hd2, hn, hcase⟩
      | some df =>
        simp only [createUpdatePass, hg, hdf] at hc
        rcases List.mem_cons.mp hc with he | hmem
        · refine ⟨d, List.mem_cons_self d rest, by rw [he]; rfl,
            Or.inr ⟨od, hg, ?_⟩⟩
          rw [hdf]
          intro hcon
          cases hcon
        · obtain ⟨d2, hd2, hn, hcase⟩ := ih c hmem
          exact ⟨d2, List.mem_cons_of_mem d hd2, hn, hcase⟩

theorem delPass_mem_structure (old new : Snapshot) :
    ∀ c ∈ deletePass old new,
      ∃ n od, n ∈ snapNames old ∧ alistHas new n = false ∧
        alistGet old n = some od ∧
        c = { action := .delete, oldDirent := some od } := by
  intro c hc
  unfold deletePass at hc
  obtain ⟨n, hn, hfn⟩ := List.mem_filterMap.mp hc
  by_cases hh : alistHas new n
  · rw [if_pos hh] at hfn
    cases hfn
  · rw [if_neg hh] at hfn
    cases hget : alistGet old n with
    | none =>
      rw [hget] at hfn
      cases hfn
    | some od =>
      rw [hget] at hfn
      refine ⟨n, od, hn, by simp [hh], hget, ?_⟩
      cases hfn
      rfl

theorem delPass_actions (old new : Snapshot) :
    ∀ c ∈ deletePass old new, c.action = Action.delete := by
  intro c hc
  obtain ⟨n, od, _, _, _, he⟩ := delPass_mem_structure old new c hc
  rw [he]

theorem delPass_names (old new : Snapshot)
    (hwf : ∀ p ∈ old, (p.2).name = p.1) :
    (deletePass old new).map changeName
      = ((snapNames old).filter (fun n => !(alistHas new n))).map some := by
  unfold deletePass
  have haux : ∀ ns : List String, (∀ n ∈ ns, n ∈ snapNames old) →
      (List.map changeName (ns.filterMap (fun n =>
        if alistHas new n then none
        else (alistGet old n).map
          (fun od => { action := .delete, oldDirent := some od : Change })))
        = (ns.filter (fun n => !(alistHas new n))).map some) := by
    intro ns
    induction ns with
    | nil => intro _; rfl
    | cons n rest ih =>
      intro hmem
      have hn : n ∈ snapNames old := hmem n (List.mem_cons_self n rest)
      have hrest : ∀ m ∈ rest, m ∈ snapNames old :=
        fun m hm => hmem m (List.mem_cons_of_mem n hm)
      by_cases hh : alistHas new n
      · simp [List.filterMap_cons, List.filter_cons, hh, ih hrest]
      · obtain ⟨od, hget, hname⟩ := alistGet_of_mem_names old n hwf hn
        simp [List.filterMap_cons, List.filter_cons, hh, hget, ih hrest,
          changeName, hname]
  exact haux (snapNames old) (fun n hn => hn)

theorem cuPass_eq_nil (old : Snapshot) (ds : List Dirent)
    (h : ∀ d ∈ ds, ∃ od, alistGet old d.name = some od ∧
      diffDirents od d = none) :
    createUpdatePass old ds = [] := by
  induction ds with
  | nil => rfl
  | cons d rest ih =>
    obtain ⟨od, hget, hdf⟩ := h d (List.mem_cons_self d rest)
    simp only [createUpdatePass, hget, hdf]
    exact ih (fun d2 hd2 => h d2 (List.mem_cons_of_mem d hd2))

theorem delPass_eq_nil (old new : Snapshot)
    (h : ∀ n ∈ snapNames old, alistHas new n = true) :
    deletePass old new = [] := by
  unfold deletePass
  rw [List.filterMap_eq_nil_iff]
  intro n hn
  rw [if_pos (h n hn)]

/-- Claim C3: when a prior snapshot exists, the diff over a new filtered
listing emits a create for exactly each new name absent from the old
snapshot, an update for exactly each name present in both snapshots whose
type or etag differs (an mtime-only difference produces no event for that
name), and a delete for exactly each old name absent from the new
snapshot; consequently diffing a snapshot against the very listing it was
built from yields zero changes. Stated over `changesOldState` (the
`oldState` branch of `changesFromDirents`) with the new state built as
`listDir` builds it, for listings with unique names and old snapshots
whose values carry their key as name (as every committed snapshot
does). -/
theorem C3_snapshot_diff (old : Snapshot) (ds : List Dirent)
    (hwf : ∀ p ∈ old, (p.2).name = p.1)
    (hnd : (ds.map Dirent.name).Nodup) :
    ((changesOldState old ds (buildNewState ds)).filter
        (fun c => c.action = Action.create)
      = (ds.filter (fun d => (alistGet old d.name).isNone)).map
          (fun d => { action := .create, dirent := some d }))
    ∧ ((changesOldState old ds (buildNewState ds)).filter
        (fun c => c.action = Action.update)
      = ds.filterMap (fun d =>
          match alistGet old d.name with
          | none => none
          | some od =>
            if od.type = d.type ∧ od.etag = d.etag then none
            else some { action := .update, dirent := some d,
                        oldDirent := some od }))
    ∧ (∀ d ∈ ds, ∀ od, alistGet old d.name = some od →
        od.type = d.type → od.etag = d.etag →
        ∀ c ∈ changesOldState old ds (buildNewState ds),
          changeName c ≠ some d.name)
    ∧ (((changesOldState old ds (buildNewState ds)).filter
        (fun c => c.action = Action.delete)).map changeName
      = ((snapNames old).filter
          (fun n => !(decide (n ∈ ds.map Dirent.name)))).map some)
    ∧ changesOldState (buildNewState ds) ds (buildNewState ds) = [] := by
  refine ⟨?_, ?_, ?_, ?_, ?_⟩
  · unfold changesOldState
    rw [List.filter_append, cuPass_filter_create]
    have hdel : (deletePass old (buildNewState ds)).filter
        (fun c => c.action = Action.create) = [] := by
      rw [List.filter_eq_nil_iff]
      intro c hc
      rw [delPass_actions old _ c hc]
      simp
    rw [hdel, List.append_nil]
  · unfold changesOldState
    rw [List.filter_append, cuPass_filter_update]
    have hdel : (deletePass old (buildNewState ds)).filter
        (fun c => c.action = Action.update) = [] := by
      rw [List.filter_eq_nil_iff]
      intro c hc
      rw [delPass_actions old _ c hc]
      simp
    rw [hdel, List.append_nil]
  · intro d hd od hget ht he c hc hname
    unfold changesOldState at hc
    rcases List.mem_append.mp hc with hcu | hdel
    · obtain ⟨d2, hd2, hn2, hcase⟩ := cuPass_mem_structure old ds c hcu
      rw [hname] at hn2
      have hdd : d2 = d :=
        List.inj_on_of_nodup_map hnd hd2 hd (Option.some.inj hn2).symm
      subst hdd
      rcases hcase with hnone | ⟨od2, hget2, hdf2⟩
      · rw [hget] at hnone
        cases hnone
      · rw [hget] at hget2
        have hodeq : od = od2 := Option.some.inj hget2
        subst hodeq
        exact hdf2 ((diffDirents_eq_none_iff od d2).mpr ⟨ht, he⟩)
    · obtain ⟨n, od2, hnmem, hhas, hget2, hceq⟩ :=
        delPass_mem_structure old (buildNewState ds) c hdel
      have hcn : changeName c = some od2.name := by
        rw [hceq]
        rfl
      rw [hname] at hcn
      obtain ⟨od3, hg3, hn3⟩ := alistGet_of_mem_names old n hwf hnmem
      rw [hget2] at hg3
      have : od2.name = n := by
        rw [Option.some.inj hg3]
        exact hn3
      have hdn : d.name = n := by
        rw [← this]
        exact Option.some.inj hcn
      have hmem : n ∈ snapNames (buildNewState ds) := by
        rw [mem_snapNames_buildNewState, ← hdn]
        exact List.mem_map_of_mem Dirent.name hd
      rw [(alistHas_eq_true_iff _ _).mpr hmem] at hhas
      cases hhas
  · unfold changesOldState
    rw [List.filter_append]
    have hcu : (createUpdatePass old ds).filter
        (fun c => c.action = Action.delete) = [] := by
      rw [List.filter_eq_nil_iff]
      intro c hc
      rcases cuPass_actions old ds c hc with h1 | h1 <;> rw [h1] <;> simp
    have hfd : (deletePass old (buildNewState ds)).filter
        (fun c => c.action = Action.delete)
        = deletePass old (buildNewState ds) := by
      rw [List.filter_eq_self]
      intro c hc
      rw [delPass_actions old _ c hc]
      simp
    rw [hcu, List.nil_append, hfd, delPass_names old _ hwf]
    congr 1
    apply List.filter_congr
    intro n _
    have hiff : (alistHas (buildNewState ds) n = true)
        ↔ (decide (n ∈ ds.map Dirent.name) = true) := by
      rw [alistHas_eq_true_iff, mem_snapNames_buildNewState,
        decide_eq_true_eq]
    have heq : alistHas (buildNewState ds) n
        = decide (n ∈ ds.map Dirent.name) := by
      cases h1 : alistHas (buildNewState ds) n
      · cases h2 : decide (n ∈ ds.map Dirent.name)
        · rfl
        · have := hiff.mpr h2
          rw [h1] at this
          cases this
      · rw [hiff.mp h1]
    rw [heq]
  · unfold changesOldState
    rw [cuPass_eq_nil, delPass_eq_nil]
    · rfl
    · intro n hn
      exact (alistHas_eq_true_iff _ _).mpr hn
    · intro d hd
      exact ⟨d, alistGet_buildNewState ds hnd d hd, diffDirents_self d⟩

/-- Witness for C3: the reflexivity component evaluated at the one-entry
listing holding `dA`. -/
theorem C3_witness :
    changesOldState (buildNewState [dA]) [dA] (buildNewState [dA]) = [] :=
  (C3_snapshot_diff [("a", dA)] [dA] (by decide) (by decide)).2.2.2.2

theorem bootstrapDeletes_actions (lds : List LocalDirent) (ns : Snapshot) :
    ∀ c ∈ bootstrapDeletes lds ns, c.action = Action.delete := by
  intro c hc
  obtain ⟨ld, _, hf⟩ := List.mem_filterMap.mp hc
  by_cases hh : alistHas ns ld.name
  · rw [if_pos hh] at hf
    cases hf
  · rw [if_neg hh] at hf
    cases hf
    rfl

theorem bootstrapCreates_actions (lds : List LocalDirent) (ds : List Dirent) :
    ∀ c ∈ bootstrapCreates lds ds, c.action = Action.create := by
  intro c hc
  obtain ⟨d, _, hf⟩ := List.mem_filterMap.mp hc
  by_cases hh : (localLookup lds d.name).isSome
  · rw [if_pos hh] at hf
    cases hf
  · rw [if_neg hh] at hf
    cases hf
    rfl

theorem checkPU_ok_actions (pu : List String) :
    ∀ (env : PollEnv) (sd : String) (ns : Snapshot) (lds : List LocalDirent)
      (cs : List Change) (effs : List Eff),
      checkPossibleUpdates env sd ns lds pu = (.ok cs, effs) →
      ∀ c ∈ cs, c.action = Action.update := by
  induction pu with
  | nil =>
    intro env sd ns lds cs effs h c hc
    simp [checkPossibleUpdates] at h
    rw [h.1] at hc
    cases hc
  | cons n rest ih =>
    intro env sd ns lds cs effs h c hc
    cases hga : alistGet ns n with
    | none => simp [checkPossibleUpdates, hga] at h
    | some d =>
      cases hll : localLookup lds n with
      | none => simp [checkPossibleUpdates, hga, hll] at h
      | some ld =>
        cases hinfo : env.info (pathJoin d.parent n) with
        | error msg => simp [checkPossibleUpdates, hga, hll, hinfo] at h
        | ok i =>
          cases hrec : checkPossibleUpdates env sd ns lds rest with
          | mk r effs2 =>
            cases r with
            | ok cs2 =>
              simp [checkPossibleUpdates, hga, hll, hinfo, hrec] at h
              rw [← h.1] at hc
              rcases List.mem_append.mp hc with hupd | hrest
              · by_cases h1 : i.size = ld.stat.size
                · rw [if_pos h1] at hupd
                  by_cases h2 : env.localMd5 (pathJoin sd n) = i.md5
                  · rw [if_pos h2] at hupd
                    cases hupd
                  · rw [if_neg h2] at hupd
                    rw [List.mem_singleton.mp hupd]
                · rw [if_neg h1] at hupd
                  rw [List.mem_singleton.mp hupd]
              · exact ih env sd ns lds cs2 effs2 (by rw [hrec]) c hrest
            | errored e => simp [checkPossibleUpdates, hga, hll, hinfo, hrec] at h
            | crashed => simp [checkPossibleUpdates, hga, hll, hinfo, hrec] at h
            | hung => simp [checkPossibleUpdates, hga, hll, hinfo, hrec] at h

theorem changesStep_bootstrap_shape (cfg : WatcherOpts) (env : PollEnv)
    (ds : List Dirent) (ns : Snapshot) (lds : List LocalDirent) (sd : String)
    (cs : List Change) (pu : Option (List String))
    (hsd : cfg.syncDir = some sd)
    (h : (changesFromDirentsStep cfg env none ds ns lds).1 = .ok (cs, pu)) :
    ∃ upds effs,
      checkPossibleUpdates env sd ns lds (bootstrapPossibleUpdates lds ds)
        = (.ok upds, effs)
      ∧ cs = bootstrapDeletes lds ns ++ bootstrapCreates lds ds ++ upds
      ∧ pu = some (bootstrapPossibleUpdates lds ds) := by
  unfold changesFromDirentsStep at h
  rw [hsd] at h
  cases hc : checkPossibleUpdates env sd ns lds
      (bootstrapPossibleUpdates lds ds) with
  | mk r effs =>
    cases r with
    | ok upds =>
      simp only [hc] at h
      simp at h
      refine ⟨upds, effs, rfl, ?_, h.2.symm⟩
      rw [List.append_assoc]
      exact h.1.symm
    | errored e =>
      simp only [hc] at h
      simp at h
    | crashed =>
      simp only [hc] at h
      simp at h
    | hung =>
      simp only [hc] at h
      simp at h

theorem eventsFromChanges_map_action (cs : List Change) :
    ∀ (cfg : WatcherOpts) (t : String) (evs : List Event),
      eventsFromChanges cfg t cs = .ok evs →
      evs.map Event.action = cs.map Change.action := by
  induction cs with
  | nil =>
    intro cfg t evs h
    simp [eventsFromChanges] at h
    rw [h]
    rfl
  | cons ch rest ih =>
    intro cfg t evs h
    cases hcn : changeName ch with
    | none => simp [eventsFromChanges, hcn] at h
    | some name =>
      cases ha : ch.action with
      | delete =>
        cases hrec : eventsFromChanges cfg t rest with
        | ok evs2 =>
          simp [eventsFromChanges, hcn, ha, hrec] at h
          rw [← h]
          simp [ih cfg t evs2 hrec, ha]
        | errored e => simp [eventsFromChanges, hcn, ha, hrec] at h
        | crashed => simp [eventsFromChanges, hcn, ha, hrec] at h
        | hung => simp [eventsFromChanges, hcn, ha, hrec] at h
      | create =>
        cases hd : ch.dirent with
        | none => simp [eventsFromChanges, hcn, ha, hd] at h
        | some d =>
          cases hrec : eventsFromChanges cfg t rest with
          | ok evs2 =>
            simp [eventsFromChanges, hcn, ha, hd, hrec] at h
            rw [← h]
            simp [ih cfg t evs2 hrec, ha]
          | errored e => simp [eventsFromChanges, hcn, ha, hd, hrec] at h
          | crashed => simp [eventsFromChanges, hcn, ha, hd, hrec] at h
          | hung => simp [eventsFromChanges, hcn, ha, hd, hrec] at h
      | update =>
        cases hd : ch.dirent with
        | none => simp [eventsFromChanges, hcn, ha, hd] at h
        | some d =>
          cases hrec : eventsFromChanges cfg t rest with
          | ok evs2 =>
            simp [eventsFromChanges, hcn, ha, hd, hrec] at h
            rw [← h]
            simp [ih cfg t evs2 hrec, ha]
          | errored e => simp [eventsFromChanges, hcn, ha, hd, hrec] at h
          | crashed => simp [eventsFromChanges, hcn, ha, hd, hrec] at h
          | hung => simp [eventsFromChanges, hcn, ha, hd, hrec] at h

/-- Claim C5 counterexample: on the bootstrap reconciliation poll with a
mirror holding `z` and a remote listing holding only `a`, the single
produced event group is `[delete z, create a]` — the delete precedes the
create, refuting the claim that within every poll's group all
create/update events appear before all delete events. -/
theorem C5_counterexample :
    (pollPipeline cfgBootOrder envBootOrder wFreshPaused).vars.buffer
      = [[{ timeEvent := "T", action := .delete, name := "z", path := "/r/z",
            mtime := none },
          { timeEvent := "T", action := .create, name := "a", path := "/r/a",
            mtime := some "t" }]]
    ∧ (((pollPipeline cfgBootOrder envBootOrder wFreshPaused).vars.buffer.headD
        []).map Event.action) = [Action.delete, Action.create] := by
  exact ⟨by decide, by decide⟩

/-- Claim C5 (amended): in a poll diffing against a prior snapshot the
change list is the create/update pass followed by the delete pass, so all
creates and updates (in listing order) precede all deletes; in the
bootstrap mirror poll the order is instead all deletes first (in local
listing order), then all creates (in remote listing order), then all
updates; and the event builder maps changes to events one-to-one,
preserving order and actions. -/
theorem C5_order_amended :
    (∀ old ds ns, changesOldState old ds ns
        = createUpdatePass old ds ++ deletePass old ns
      ∧ (∀ c ∈ createUpdatePass old ds,
          c.action = Action.create ∨ c.action = Action.update)
      ∧ (∀ c ∈ deletePass old ns, c.action = Action.delete))
    ∧ (∀ cfg env ds ns lds sd cs pu,
        cfg.syncDir = some sd →
        (changesFromDirentsStep cfg env none ds ns lds).1 = .ok (cs, pu) →
        ∃ upds,
          cs = bootstrapDeletes lds ns ++ bootstrapCreates lds ds ++ upds
          ∧ (∀ c ∈ bootstrapDeletes lds ns, c.action = Action.delete)
          ∧ (∀ c ∈ bootstrapCreates lds ds, c.action = Action.create)
          ∧ (∀ c ∈ upds, c.action = Action.update))
    ∧ (∀ cfg t cs evs, eventsFromChanges cfg t cs = .ok evs →
        evs.map Event.action = cs.map Change.action) := by
  refine ⟨?_, ?_, ?_⟩
  · intro old ds ns
    exact ⟨rfl, cuPass_actions old ds, delPass_actions old ns⟩
  · intro cfg env ds ns lds sd cs pu hsd h
    obtain ⟨upds, effs, hchk, hcs, _⟩ :=
      changesStep_bootstrap_shape cfg env ds ns lds sd cs pu hsd h
    exact ⟨upds, hcs, bootstrapDeletes_actions lds ns,
      bootstrapCreates_actions lds ds,
      checkPU_ok_actions (bootstrapPossibleUpdates lds ds) env sd ns lds
        upds effs hchk⟩
  · intro cfg t cs evs h
    exact eventsFromChanges_map_action cs cfg t evs h

/-- Witness for C5 (amended): the event builder evaluated on one create
change for `dA`. -/
theorem C5_witness :
    ([evA] : List Event).map Event.action
      = [({ action := .create, dirent := some dA } : Change)].map
          Change.action :=
  C5_order_amended.2.2 cfgPlain "T"
    [{ action := .create, dirent := some dA }] [evA] (by decide)

/-
Shape lemmas: which effects and which errors each pipeline step can
produce.
-/

theorem firstRun_effs_shape (cfg : WatcherOpts) (env : PollEnv) :
    ∀ e ∈ (firstRunLocalDirentsStep cfg env).2, isReadMirrorEff e = true := by
  intro e he
  unfold firstRunLocalDirentsStep at he
  cases hsd : cfg.syncDir with
  | none =>
    simp only [hsd] at he
    cases he
  | some sd =>
    cases hrd : env.readdir with
    | enoent =>
      simp only [hsd, hrd] at he
      rw [List.mem_singleton.mp he]
      rfl
    | err code =>
      simp only [hsd, hrd] at he
      rw [List.mem_singleton.mp he]
      rfl
    | ok names =>
      simp only [hsd, hrd] at he
      rw [List.mem_singleton.mp he]
      rfl

theorem checkPU_effs_shape (pu : List String) :
    ∀ (env : PollEnv) (sd : String) (ns : Snapshot) (lds : List LocalDirent),
      ∀ e ∈ (checkPossibleUpdates env sd ns lds pu).2, isInfoEff e = true := by
  induction pu with
  | nil => intro env sd ns lds e he; cases he
  | cons n rest ih =>
    intro env sd ns lds e he
    cases hga : alistGet ns n with
    | none =>
      simp only [checkPossibleUpdates, hga] at he
      cases he
    | some d =>
      cases hll : localLookup lds n with
      | none =>
        simp only [checkPossibleUpdates, hga, hll] at he
        cases he
      | some ld =>
        cases hinfo : env.info (pathJoin d.parent n) with
        | error msg =>
          simp only [checkPossibleUpdates, hga, hll, hinfo] at he
          rw [List.mem_singleton.mp he]
          rfl
        | ok i =>
          cases hrec : checkPossibleUpdates env sd ns lds rest with
          | mk r effs2 =>
            have hrecm : ∀ e2 ∈ effs2, isInfoEff e2 = true := by
              intro e2 he2
              exact ih env sd ns lds e2 (by rw [hrec]; exact he2)
            cases r with
            | ok cs2 =>
              simp only [checkPossibleUpdates, hga, hll, hinfo, hrec] at he
              rcases List.mem_cons.mp he with he1 | he2
              · rw [he1]; rfl
              · exact hrecm e he2
            | errored e2 =>
              simp only [checkPossibleUpdates, hga, hll, hinfo, hrec] at he
              rcases List.mem_cons.mp he with he1 | he2
              · rw [he1]; rfl
              · exact hrecm e he2
            | crashed =>
              simp only [checkPossibleUpdates, hga, hll, hinfo, hrec] at he
              rcases List.mem_cons.mp he with he1 | he2
              · rw [he1]; rfl
              · exact hrecm e he2
            | hung =>
              simp only [checkPossibleUpdates, hga, hll, hinfo, hrec] at he
              rcases List.mem_cons.mp he with he1 | he2
              · rw [he1]; rfl
              · exact hrecm e he2

theorem changesStep_effs_shape (cfg : WatcherOpts) (env : PollEnv)
    (oldState : Option Snapshot) (ds : List Dirent) (ns : Snapshot)
    (lds : List LocalDirent) :
    ∀ e ∈ (changesFromDirentsStep cfg env oldState ds ns lds).2,
      isInfoEff e = true := by
  intro e he
  unfold changesFromDirentsStep at he
  cases oldState with
  | some old => cases he
  | none =>
    cases hsd : cfg.syncDir with
    | none =>
      simp only [hsd] at he
      cases he
    | some sd =>
      simp only [hsd] at he
      cases hc : checkPossibleUpdates env sd ns lds
          (bootstrapPossibleUpdates lds ds) with
      | mk r effs =>
        have hm : ∀ e2 ∈ effs, isInfoEff e2 = true := by
          intro e2 he2
          exact checkPU_effs_shape (bootstrapPossibleUpdates lds ds)
            env sd ns lds e2 (by rw [hc]; exact he2)
        cases r with
        | ok upds =>
          simp only [hc] at he
          exact hm e he
        | errored e2 =>
          simp only [hc] at he
          exact hm e he
        | crashed =>
          simp only [hc] at he
          exact hm e he
        | hung =>
          simp only [hc] at he
          exact hm e he

theorem syncDirent_effs_shape (env : PollEnv) (sd : String) (d : Dirent) :
    ∀ e ∈ (syncDirent env sd d).2, isSyncEff e = true := by
  intro e he
  unfold syncDirent at he
  cases hmk : env.mkdirp sd with
  | error msg =>
    simp only [hmk] at he
    rcases List.mem_cons.mp he with h1 | h1
    · rw [h1]; rfl
    · rw [List.mem_singleton.mp h1]; rfl
  | ok u =>
    cases hget : env.get (pathJoin d.parent d.name) with
    | error msg =>
      simp only [hmk, hget] at he
      rcases List.mem_cons.mp he with h1 | h1
      · rw [h1]; rfl
      · rw [List.mem_singleton.mp h1]; rfl
    | ok u2 =>
      cases hsf : env.streamFinish (pathJoin d.parent d.name) with
      | false =>
        simp only [hmk, hget, hsf, Bool.false_eq_true, if_false] at he
        rcases List.mem_cons.mp he with h1 | h1
        · rw [h1]; rfl
        · rcases List.mem_cons.mp h1 with h2 | h2
          · rw [h2]; rfl
          · rw [List.mem_singleton.mp h2]; rfl
      | true =>
        cases hrn : env.rename (pathJoin sd d.name) with
        | error msg =>
          simp only [hmk, hget, hsf, hrn, if_true] at he
          rcases List.mem_cons.mp he with h1 | h1
          · rw [h1]; rfl
          · rcases List.mem_cons.mp h1 with h2 | h2
            · rw [h2]; rfl
            · rcases List.mem_cons.mp h2 with h3 | h3
              · rw [h3]; rfl
              · rcases List.mem_cons.mp h3 with h4 | h4
                · rw [h4]; rfl
                · rw [List.mem_singleton.mp h4]; rfl
        | ok u3 =>
          simp only [hmk, hget, hsf, hrn, if_true] at he
          rcases List.mem_cons.mp he with h1 | h1
          · rw [h1]; rfl
          · rcases List.mem_cons.mp h1 with h2 | h2
            · rw [h2]; rfl
            · rcases List.mem_cons.mp h2 with h3 | h3
              · rw [h3]; rfl
              · rw [List.mem_singleton.mp h3]; rfl

theorem syncLoop_effs_shape (cfg : WatcherOpts) (env : PollEnv) (sd : String)
    (cs : List Change) :
    ∀ e ∈ (syncChangeLoop cfg env sd cs).2, isSyncEff e = true := by
  induction cs with
  | nil => intro e he; cases he
  | cons ch rest ih =>
    intro e he
    cases ha : ch.action with
    | create =>
      cases hd : ch.dirent with
      | none =>
        simp only [syncChangeLoop, ha, hd] at he
        cases he
      | some d =>
        cases hs : syncDirent env sd d with
        | mk r effs =>
          have hm : ∀ e2 ∈ effs, isSyncEff e2 = true := by
            intro e2 he2
            exact syncDirent_effs_shape env sd d e2 (by rw [hs]; exact he2)
          cases r with
          | ok u =>
            cases hrec : syncChangeLoop cfg env sd rest with
            | mk r2 effs2 =>
              simp only [syncChangeLoop, ha, hd, hs, hrec] at he
              rcases List.mem_append.mp he with h1 | h1
              · exact hm e h1
              · exact ih e (by rw [hrec]; exact h1)
          | errored e2 =>
            simp only [syncChangeLoop, ha, hd, hs] at he
            exact hm e he
          | crashed =>
            simp only [syncChangeLoop, ha, hd, hs] at he
            exact hm e he
          | hung =>
            simp only [syncChangeLoop, ha, hd, hs] at he
            exact hm e he
    | update =>
      cases hd : ch.dirent with
      | none =>
        simp only [syncChangeLoop, ha, hd] at he
        cases he
      | some d =>
        cases hs : syncDirent env sd d with
        | mk r effs =>
          have hm : ∀ e2 ∈ effs, isSyncEff e2 = true := by
            intro e2 he2
            exact syncDirent_effs_shape env sd d e2 (by rw [hs]; exact he2)
          cases r with
          | ok u =>
            cases hrec : syncChangeLoop cfg env sd rest with
            | mk r2 effs2 =>
              simp only [syncChangeLoop, ha, hd, hs, hrec] at he
              rcases List.mem_append.mp he with h1 | h1
              · exact hm e h1
              · exact ih e (by rw [hrec]; exact h1)
          | errored e2 =>
            simp only [syncChangeLoop, ha, hd, hs] at he
            exact hm e he
          | crashed =>
            simp only [syncChangeLoop, ha, hd, hs] at he
            exact hm e he
          | hung =>
            simp only [syncChangeLoop, ha, hd, hs] at he
            exact hm e he
    | delete =>
      cases hsd : cfg.syncDelete with
      | false =>
        simp only [syncChangeLoop, ha, hsd, Bool.false_eq_true, if_false] at he
        exact ih e he
      | true =>
        cases hod : ch.oldDirent with
        | some od =>
          cases hrim : env.rimraf (pathJoin od.parent od.name) with
          | error msg =>
            simp only [syncChangeLoop, ha, hsd, hod, hrim, if_true] at he
            rw [List.mem_singleton.mp he]
            rfl
          | ok u =>
            cases hrec : syncChangeLoop cfg env sd rest with
            | mk r2 effs2 =>
              simp only [syncChangeLoop, ha, hsd, hod, hrim, hrec, if_true]
                at he
              rcases List.mem_cons.mp he with h1 | h1
              · rw [h1]; rfl
              · exact ih e (by rw [hrec]; exact h1)
        | none =>
          cases hold : ch.oldLocalDirent with
          | none =>
            simp only [syncChangeLoop, ha, hsd, hod, hold, if_true] at he
            cases he
          | some ld =>
            cases hrim : env.rimraf ld.path with
            | error msg =>
              simp only [syncChangeLoop, ha, hsd, hod, hold, hrim, if_true]
                at he
              rw [List.mem_singleton.mp he]
              rfl
            | ok u =>
              cases hrec : syncChangeLoop cfg env sd rest with
              | mk r2 effs2 =>
                simp only [syncChangeLoop, ha, hsd, hod, hold, hrim, hrec,
                  if_true] at he
                rcases List.mem_cons.mp he with h1 | h1
                · rw [h1]; rfl
                · exact ih e (by rw [hrec]; exact h1)

theorem syncStep_effs_shape (cfg : WatcherOpts) (env : PollEnv)
    (cs : List Change) :
    ∀ e ∈ (syncChangesStep cfg env cs).2, isSyncEff e = true := by
  intro e he
  unfold syncChangesStep at he
  cases hsd : cfg.syncDir with
  | none =>
    simp only [hsd] at he
    cases he
  | some sd =>
    cases hdr : cfg.dryRun with
    | false =>
      simp only [hsd, hdr, Bool.false_eq_true, if_false] at he
      exact syncLoop_effs_shape cfg env sd cs e he
    | true =>
      simp only [hsd, hdr, if_true] at he
      cases he

theorem pushEvents_effs_shape (cfg : WatcherOpts) (env : PollEnv)
    (w : WatcherVars) (cs : List Change) :
    ∀ e ∈ (pushEventsStep cfg env w cs).2.1, isDeliveryEff e = true := by
  intro e he
  unfold pushEventsStep at he
  cases hev : eventsFromChanges cfg env.nowIso cs with
  | ok events =>
    simp only [hev] at he
    by_cases hnil : events = []
    · simp only [hnil, if_pos rfl] at he
      cases he
    · simp only [if_neg hnil] at he
      cases hp : w.paused with
      | true =>
        simp only [hp, if_true] at he
        rw [List.mem_singleton.mp he]
        rfl
      | false =>
        simp only [hp, Bool.false_eq_true, if_false] at he
        cases ha : env.pushAccept with
        | true =>
          simp only [ha, if_true] at he
          rw [List.mem_singleton.mp he]
          rfl
        | false =>
          simp only [ha, Bool.false_eq_true, if_false] at he
          rw [List.mem_singleton.mp he]
          rfl
  | errored e2 =>
    simp only [hev] at he
    cases he
  | crashed =>
    simp only [hev] at he
    cases he
  | hung =>
    simp only [hev] at he
    cases he

theorem listDir_err_shape (cfg : WatcherOpts) (env : PollEnv) (e : PollErr)
    (h : listDirStep cfg env = .error e) : ∃ n, e = .lsErr n := by
  unfold listDirStep at h
  cases hls : env.ls with
  | ok raw =>
    simp only [hls] at h
    cases h
  | err code =>
    simp only [hls] at h
    by_cases hc : code = 404
    · rw [if_pos hc] at h
      cases h
    · rw [if_neg hc] at h
      exact ⟨code, (Except.error.inj h).symm⟩

theorem lstatLoop_err_shape (env : PollEnv) (sd : String) (ns : List String) :
    ∀ e, lstatLoop env sd ns = .error e → ∃ m, e = .lstatErr m := by
  induction ns with
  | nil =>
    intro e h
    cases h
  | cons n rest ih =>
    intro e h
    cases hl : env.lstat (pathJoin sd n) with
    | error msg =>
      simp only [lstatLoop, hl] at h
      exact ⟨msg, (Except.error.inj h).symm⟩
    | ok st =>
      cases hr : lstatLoop env sd rest with
      | error e2 =>
        simp only [lstatLoop, hl, hr] at h
        obtain ⟨m, hm⟩ := ih e2 hr
        exact ⟨m, by rw [← Except.error.inj h, hm]⟩
      | ok lds =>
        simp only [lstatLoop, hl, hr] at h
        cases h

theorem firstRun_err_shape (cfg : WatcherOpts) (env : PollEnv) (e : PollErr)
    (h : (firstRunLocalDirentsStep cfg env).1 = .error e) :
    (∃ m, e = .readdirErr m) ∨ (∃ m, e = .lstatErr m) := by
  unfold firstRunLocalDirentsStep at h
  cases hsd : cfg.syncDir with
  | none =>
    simp only [hsd] at h
    cases h
  | some sd =>
    cases hrd : env.readdir with
    | enoent =>
      simp only [hsd, hrd] at h
      cases h
    | err code =>
      simp only [hsd, hrd] at h
      exact Or.inl ⟨code, (Except.error.inj h).symm⟩
    | ok names =>
      simp only [hsd, hrd] at h
      exact Or.inr (lstatLoop_err_shape env sd _ e h)

theorem checkPU_err_shape (pu : List String) :
    ∀ (env : PollEnv) (sd : String) (ns : Snapshot) (lds : List LocalDirent)
      (e : PollErr),
      (checkPossibleUpdates env sd ns lds pu).1 = .errored e →
      ∃ m, e = .infoErr m := by
  induction pu with
  | nil =>
    intro env sd ns lds e h
    cases h
  | cons n rest ih =>
    intro env sd ns lds e h
    cases hga : alistGet ns n with
    | none =>
      simp only [checkPossibleUpdates, hga] at h
      cases h
    | some d =>
      cases hll : localLookup lds n with
      | none =>
        simp only [checkPossibleUpdates, hga, hll] at h
        cases h
      | some ld =>
        cases hinfo : env.info (pathJoin d.parent n) with
        | error msg =>
          simp only [checkPossibleUpdates, hga, hll, hinfo] at h
          exact ⟨msg, (StepRes.errored.inj h).symm⟩
        | ok i =>
          cases hrec : checkPossibleUpdates env sd ns lds rest with
          | mk r effs2 =>
            cases r with
            | ok cs2 =>
              simp only [checkPossibleUpdates, hga, hll, hinfo, hrec] at h
              cases h
            | errored e2 =>
              simp only [checkPossibleUpdates, hga, hll, hinfo, hrec] at h
              obtain ⟨m, hm⟩ := ih env sd ns lds e2 (by rw [hrec])
              exact ⟨m, by rw [← StepRes.errored.inj h, hm]⟩
            | crashed =>
              simp only [checkPossibleUpdates, hga, hll, hinfo, hrec] at h
              cases h
            | hung =>
              simp only [checkPossibleUpdates, hga, hll, hinfo, hrec] at h
              cases h

theorem changesStep_err_shape (cfg : WatcherOpts) (env : PollEnv)
    (oldState : Option Snapshot) (ds : List Dirent) (ns : Snapshot)
    (lds : List LocalDirent) (e : PollErr)
    (h : (changesFromDirentsStep cfg env oldState ds ns lds).1 = .errored e) :
    ∃ m, e = .infoErr m := by
  unfold changesFromDirentsStep at h
  cases oldState with
  | some old => cases h
  | none =>
    cases hsd : cfg.syncDir with
    | none =>
      simp only [hsd] at h
      cases h
    | some sd =>
      simp only [hsd] at h
      cases hc : checkPossibleUpdates env sd ns lds
          (bootstrapPossibleUpdates lds ds) with
      | mk r effs =>
        cases r with
        | ok upds =>
          simp only [hc] at h
          cases h
        | errored e2 =>
          simp only [hc] at h
          obtain ⟨m, hm⟩ :=
            checkPU_err_shape (bootstrapPossibleUpdates lds ds)
              env sd ns lds e2 (by rw [hc])
          exact ⟨m, by rw [← StepRes.errored.inj h, hm]⟩
        | crashed =>
          simp only [hc] at h
          cases h
        | hung =>
          simp only [hc] at h
          cases h

theorem syncDirent_err_shape (env : PollEnv) (sd : String) (d : Dirent)
    (e : PollErr) (h : (syncDirent env sd d).1 = .errored e) :
    ∃ m, e = .syncErr m := by
  unfold syncDirent at h
  cases hmk : env.mkdirp sd with
  | error msg =>
    simp only [hmk] at h
    exact ⟨msg, (StepRes.errored.inj h).symm⟩
  | ok u =>
    cases hget : env.get (pathJoin d.parent d.name) with
    | error msg =>
      simp only [hmk, hget] at h
      cases h
    | ok u2 =>
      cases hsf : env.streamFinish (pathJoin d.parent d.name) with
      | false =>
        simp only [hmk, hget, hsf, Bool.false_eq_true, if_false] at h
        cases h
      | true =>
        cases hrn : env.rename (pathJoin sd d.name) with
        | error msg =>
          simp only [hmk, hget, hsf, hrn, if_true] at h
          exact ⟨msg, (StepRes.errored.inj h).symm⟩
        | ok u3 =>
          simp only [hmk, hget, hsf, hrn, if_true] at h
          cases h

theorem syncLoop_err_shape (cfg : WatcherOpts) (env : PollEnv) (sd : String)
    (cs : List Change) :
    ∀ e, (syncChangeLoop cfg env sd cs).1 = .errored e →
      (∃ m, e = .syncErr m) ∨ (∃ m, e = .rimrafErr m) := by
  induction cs with
  | nil =>
    intro e h
    cases h
  | cons ch rest ih =>
    intro e h
    cases ha : ch.action with
    | create =>
      cases hd : ch.dirent with
      | none =>
        simp only [syncChangeLoop, ha, hd] at h
        cases h
      | some d =>
        cases hs : syncDirent env sd d with
        | mk r effs =>
          cases r with
          | ok u =>
            cases hrec : syncChangeLoop cfg env sd rest with
            | mk r2 effs2 =>
              simp only [syncChangeLoop, ha, hd, hs, hrec] at h
              exact ih e (by rw [hrec]; exact h)
          | errored e2 =>
            simp only [syncChangeLoop, ha, hd, hs] at h
            obtain ⟨m, hm⟩ := syncDirent_err_shape env sd d e2 (by rw [hs])
            exact Or.inl ⟨m, by rw [← StepRes.errored.inj h, hm]⟩
          | crashed =>
            simp only [syncChangeLoop, ha, hd, hs] at h
            cases h
          | hung =>
            simp only [syncChangeLoop, ha, hd, hs] at h
            cases h
    | update =>
      cases hd : ch.dirent with
      | none =>
        simp only [syncChangeLoop, ha, hd] at h
        cases h
      | some d =>
        cases hs : syncDirent env sd d with
        | mk r effs =>
          cases r with
          | ok u =>
            cases hrec : syncChangeLoop cfg env sd rest with
            | mk r2 effs2 =>
              simp only [syncChangeLoop, ha, hd, hs, hrec] at h
              exact ih e (by rw [hrec]; exact h)
          | errored e2 =>
            simp only [syncChangeLoop, ha, hd, hs] at h
            obtain ⟨m, hm⟩ := syncDirent_err_shape env sd d e2 (by rw [hs])
            exact Or.inl ⟨m, by rw [← StepRes.errored.inj h, hm]⟩
          | crashed =>
            simp only [syncChangeLoop, ha, hd, hs] at h
            cases h
          | hung =>
            simp only [syncChangeLoop, ha, hd, hs] at h
            cases h
    | delete =>
      cases hsd : cfg.syncDelete with
      | false =>
        simp only [syncChangeLoop, ha, hsd, Bool.false_eq_true, if_false] at h
        exact ih e h
      | true =>
        cases hod : ch.oldDirent with
        | some od =>
          cases hrim : env.rimraf (pathJoin od.parent od.name) with
          | error msg =>
            simp only [syncChangeLoop, ha, hsd, hod, hrim, if_true] at h
            exact Or.inr ⟨msg, (StepRes.errored.inj h).symm⟩
          | ok u =>
            cases hrec : syncChangeLoop cfg env sd rest with
            | mk r2 effs2 =>
              simp only [syncChangeLoop, ha, hsd, hod, hrim, hrec, if_true]
                at h
              exact ih e (by rw [hrec]; exact h)
        | none =>
          cases hold : ch.oldLocalDirent with
          | none =>
            simp only [syncChangeLoop, ha, hsd, hod, hold, if_true] at h
            cases h
          | some ld =>
            cases hrim : env.rimraf ld.path with
            | error msg =>
              simp only [syncChangeLoop, ha, hsd, hod, hold, hrim, if_true]
                at h
              exact Or.inr ⟨msg, (StepRes.errored.inj h).symm⟩
            | ok u =>
              cases hrec : syncChangeLoop cfg env sd rest with
              | mk r2 effs2 =>
                simp only [syncChangeLoop, ha, hsd, hod, hold, hrim, hrec,
                  if_true] at h
                exact ih e (by rw [hrec]; exact h)

theorem syncStep_err_shape (cfg : WatcherOpts) (env : PollEnv)
    (cs : List Change) (e : PollErr)
    (h : (syncChangesStep cfg env cs).1 = .errored e) :
    (∃ m, e = .syncErr m) ∨ (∃ m, e = .rimrafErr m) := by
  unfold syncChangesStep at h
  cases hsd : cfg.syncDir with
  | none =>
    simp only [hsd] at h
    cases h
  | some sd =>
    cases hdr : cfg.dryRun with
    | false =>
      simp only [hsd, hdr, Bool.false_eq_true, if_false] at h
      exact syncLoop_err_shape cfg env sd cs e h
    | true =>
      simp only [hsd, hdr, if_true] at h
      cases h

theorem eventsFromChanges_not_errored (cs : List Change) :
    ∀ (cfg : WatcherOpts) (t : String) (e : PollErr),
      eventsFromChanges cfg t cs ≠ .errored e := by
  induction cs with
  | nil =>
    intro cfg t e h
    cases h
  | cons ch rest ih =>
    intro cfg t e h
    cases hcn : changeName ch with
    | none =>
      simp only [eventsFromChanges, hcn] at h
      cases h
    | some name =>
      cases ha : ch.action with
      | delete =>
        cases hrec : eventsFromChanges cfg t rest with
        | ok evs2 =>
          simp only [eventsFromChanges, hcn, ha, hrec] at h
          cases h
        | errored e2 =>
          simp only [eventsFromChanges, hcn, ha, hrec] at h
          exact ih cfg t e2 hrec
        | crashed =>
          simp only [eventsFromChanges, hcn, ha, hrec] at h
          cases h
        | hung =>
          simp only [eventsFromChanges, hcn, ha, hrec] at h
          cases h
      | create =>
        cases hd : ch.dirent with
        | none =>
          simp only [eventsFromChanges, hcn, ha, hd] at h
          cases h
        | some d =>
          cases hrec : eventsFromChanges cfg t rest with
          | ok evs2 =>
            simp only [eventsFromChanges, hcn, ha, hd, hrec] at h
            cases h
          | errored e2 =>
            simp only [eventsFromChanges, hcn, ha, hd, hrec] at h
            exact ih cfg t e2 hrec
          | crashed =>
            simp only [eventsFromChanges, hcn, ha, hd, hrec] at h
            cases h
          | hung =>
            simp only [eventsFromChanges, hcn, ha, hd, hrec] at h
            cases h
      | update =>
        cases hd : ch.dirent with
        | none =>
          simp only [eventsFromChanges, hcn, ha, hd] at h
          cases h
        | some d =>
          cases hrec : eventsFromChanges cfg t rest with
          | ok evs2 =>
            simp only [eventsFromChanges, hcn, ha, hd, hrec] at h
            cases h
          | errored e2 =>
            simp only [eventsFromChanges, hcn, ha, hd, hrec] at h
            exact ih cfg t e2 hrec
          | crashed =>
            simp only [eventsFromChanges, hcn, ha, hd, hrec] at h
            cases h
          | hung =>
            simp only [eventsFromChanges, hcn, ha, hd, hrec] at h
            cases h

theorem pushEvents_not_errored (cfg : WatcherOpts) (env : PollEnv)
    (w : WatcherVars) (cs : List Change) (e : PollErr) :
    (pushEventsStep cfg env w cs).1 ≠ .errored e := by
  intro h
  unfold pushEventsStep at h
  cases hev : eventsFromChanges cfg env.nowIso cs with
  | ok events =>
    simp only [hev] at h
    by_cases hnil : events = []
    · simp only [hnil, if_pos rfl] at h
      cases h
    · simp only [if_neg hnil] at h
      cases hp : w.paused with
      | true =>
        simp only [hp, if_true] at h
        cases h
      | false =>
        simp only [hp, Bool.false_eq_true, if_false] at h
        cases hacc : env.pushAccept with
        | true =>
          simp only [hacc, if_true] at h
          cases h
        | false =>
          simp only [hacc, Bool.false_eq_true, if_false] at h
          cases h
  | errored e2 =>
    simp only [hev] at h
    exact eventsFromChanges_not_errored cs cfg env.nowIso e2 hev
  | crashed =>
    simp only [hev] at h
    cases h
  | hung =>
    simp only [hev] at h
    cases h

/-- Master lemma for erroring polls: whenever `_poll` ends in an error,
the watcher fields are untouched, the last effect is emitting that error,
and every effect of the poll is one a pre-error step can produce (mirror
read, info call, sync file operation, group delivery) or the error
emission itself: in particular no state commit and no timer arming. -/
theorem pollPipeline_err_master (cfg : WatcherOpts) (env : PollEnv)
    (w : WatcherVars) (e : PollErr)
    (h : (pollPipeline cfg env w).outcome = .errored e) :
    (pollPipeline cfg env w).vars = w
    ∧ (pollPipeline cfg env w).effects.getLast? = some (.emitError e)
    ∧ (∀ e2 ∈ (pollPipeline cfg env w).effects,
        isReadMirrorEff e2 = true ∨ isInfoEff e2 = true
        ∨ isSyncEff e2 = true ∨ isDeliveryEff e2 = true
        ∨ e2 = .emitError e) := by
  unfold pollPipeline at h ⊢
  cases hls : listDirStep cfg env with
  | error e1 =>
    simp only [hls] at h ⊢
    obtain rfl : e1 = e := StepRes.errored.inj h
    refine ⟨trivial, by simp, ?_⟩
    intro e2 he2
    rw [List.mem_singleton.mp he2]
    right; right; right; right; rfl
  | ok pr =>
    obtain ⟨dirents, newState⟩ := pr
    cases hfr : firstRunLocalDirentsStep cfg env with
    | mk r1 effs1 =>
      have heffs1 : ∀ e2 ∈ effs1, isReadMirrorEff e2 = true := by
        intro e2 he2
        exact firstRun_effs_shape cfg env e2 (by rw [hfr]; exact he2)
      cases r1 with
      | error e1 =>
        simp only [hls, hfr] at h ⊢
        obtain rfl : e1 = e := StepRes.errored.inj h
        refine ⟨trivial, by simp [List.getLast?_concat], ?_⟩
        intro e2 he2
        rcases List.mem_append.mp he2 with h1 | h1
        · exact Or.inl (heffs1 e2 h1)
        · rw [List.mem_singleton.mp h1]
          right; right; right; right; rfl
      | ok lds =>
        cases hch : changesFromDirentsStep cfg env w.state dirents
            newState lds with
        | mk r2 effs2 =>
          have heffs2 : ∀ e2 ∈ effs2, isInfoEff e2 = true := by
            intro e2 he2
            exact changesStep_effs_shape cfg env w.state dirents newState
              lds e2 (by rw [hch]; exact he2)
          cases r2 with
          | errored e1 =>
            simp only [hls, hfr, hch] at h ⊢
            obtain rfl : e1 = e := StepRes.errored.inj h
            refine ⟨trivial, by simp [List.getLast?_concat], ?_⟩
            intro e2 he2
            rcases List.mem_append.mp he2 with h1 | h1
            · rcases List.mem_append.mp h1 with h2 | h2
              · exact Or.inl (heffs1 e2 h2)
              · exact Or.inr (Or.inl (heffs2 e2 h2))
            · rw [List.mem_singleton.mp h1]
              right; right; right; right; rfl
          | crashed =>
            simp only [hls, hfr, hch] at h
            cases h
          | hung =>
            simp only [hls, hfr, hch] at h
            cases h
          | ok pr2 =>
            obtain ⟨changes, pu⟩ := pr2
            cases hgd : firstRunSyncDeleteGuardStep cfg w.state changes pu with
            | errored e1 =>
              simp only [hls, hfr, hch, hgd] at h ⊢
              obtain rfl : e1 = e := StepRes.errored.inj h
              refine ⟨trivial, by simp [List.getLast?_concat], ?_⟩
              intro e2 he2
              rcases List.mem_append.mp he2 with h1 | h1
              · rcases List.mem_append.mp h1 with h2 | h2
                · exact Or.inl (heffs1 e2 h2)
                · exact Or.inr (Or.inl (heffs2 e2 h2))
              · rw [List.mem_singleton.mp h1]
                right; right; right; right; rfl
            | crashed =>
              simp only [hls, hfr, hch, hgd] at h
              cases h
            | hung =>
              simp only [hls, hfr, hch, hgd] at h
              cases h
            | ok u =>
              cases hsy : syncChangesStep cfg env changes with
              | mk r3 effs3 =>
                have heffs3 : ∀ e2 ∈ effs3, isSyncEff e2 = true := by
                  intro e2 he2
                  exact syncStep_effs_shape cfg env changes e2
                    (by rw [hsy]; exact he2)
                cases r3 with
                | errored e1 =>
                  simp only [hls, hfr, hch, hgd, hsy] at h ⊢
                  obtain rfl : e1 = e := StepRes.errored.inj h
                  refine ⟨trivial, by simp [List.getLast?_concat], ?_⟩
                  intro e2 he2
                  rcases List.mem_append.mp he2 with h1 | h1
                  · rcases List.mem_append.mp h1 with h2 | h2
                    · rcases List.mem_append.mp h2 with h3 | h3
                      · exact Or.inl (heffs1 e2 h3)
                      · exact Or.inr (Or.inl (heffs2 e2 h3))
                    · exact Or.inr (Or.inr (Or.inl (heffs3 e2 h2)))
                  · rw [List.mem_singleton.mp h1]
                    right; right; right; right; rfl
                | crashed =>
                  simp only [hls, hfr, hch, hgd, hsy] at h
                  cases h
                | hung =>
                  simp only [hls, hfr, hch, hgd, hsy] at h
                  cases h
                | ok u2 =>
                  cases hpe : pushEventsStep cfg env w changes with
                  | mk r4 pr4 =>
                    obtain ⟨effs4, w4⟩ := pr4
                    have heffs4 : ∀ e2 ∈ effs4, isDeliveryEff e2 = true := by
                      intro e2 he2
                      exact pushEvents_effs_shape cfg env w changes e2
                        (by rw [hpe]; exact he2)
                    cases r4 with
                    | errored e1 =>
                      exact absurd (by rw [hpe])
                        (pushEvents_not_errored cfg env w changes e1)
                    | crashed =>
                      simp only [hls, hfr, hch, hgd, hsy, hpe] at h
                      cases h
                    | hung =>
                      simp only [hls, hfr, hch, hgd, hsy, hpe] at h
                      cases h
                    | ok u3 =>
                      cases hsv : saveStateStep cfg env w4 newState with
                      | mk effs5 w5 =>
                        simp only [hls, hfr, hch, hgd, hsy, hpe, hsv] at h
                        cases h

theorem bootstrapDeletes_eq (lds : List LocalDirent) (ns : Snapshot) :
    bootstrapDeletes lds ns
      = (lds.filter (fun ld => !(alistHas ns ld.name))).map
          (fun ld => { action := .delete, oldLocalDirent := some ld }) := by
  induction lds with
  | nil => rfl
  | cons ld rest ih =>
    unfold bootstrapDeletes at ih ⊢
    rw [List.filterMap_cons, List.filter_cons]
    by_cases hh : alistHas ns ld.name
    · simp [hh, ih]
    · simp [hh, ih]

theorem guardDeleteNames_map_deletes (l : List LocalDirent) :
    guardDeleteNames (l.map (fun ld =>
        ({ action := .delete, oldLocalDirent := some ld } : Change)))
      = .ok (l.map (fun ld => ld.name)) := by
  induction l with
  | nil => rfl
  | cons ld rest ih =>
    simp [guardDeleteNames, ih]

theorem guardDeleteNames_no_deletes (cs : List Change)
    (h : ∀ c ∈ cs, c.action ≠ Action.delete) :
    guardDeleteNames cs = .ok [] := by
  induction cs with
  | nil => rfl
  | cons ch rest ih =>
    have hne := h ch (List.mem_cons_self ch rest)
    simp only [guardDeleteNames, if_neg hne]
    exact ih (fun c hc => h c (List.mem_cons_of_mem ch hc))

theorem guardDeleteNames_append (xs ys : List Change) (b : List String)
    (hy : guardDeleteNames ys = .ok b) :
    ∀ a, guardDeleteNames xs = .ok a →
      guardDeleteNames (xs ++ ys) = .ok (a ++ b) := by
  induction xs with
  | nil =>
    intro a hx
    have : a = [] := by
      simp [guardDeleteNames] at hx
      exact hx
    rw [this, List.nil_append, List.nil_append]
    exact hy
  | cons ch rest ih =>
    intro a hx
    by_cases hd : ch.action = .delete
    · cases hold : ch.oldLocalDirent with
      | none =>
        simp only [guardDeleteNames, if_pos hd, hold] at hx
        cases hx
      | some ld =>
        cases hrec : guardDeleteNames rest with
        | ok ns2 =>
          simp only [guardDeleteNames, if_pos hd, hold, hrec] at hx
          have h2 := ih ns2 hrec
          rw [List.cons_append]
          simp only [guardDeleteNames, if_pos hd, hold, h2]
          rw [← StepRes.ok.inj hx]
          rfl
        | errored e2 =>
          simp only [guardDeleteNames, if_pos hd, hold, hrec] at hx
          cases hx
        | crashed =>
          simp only [guardDeleteNames, if_pos hd, hold, hrec] at hx
          cases hx
        | hung =>
          simp only [guardDeleteNames, if_pos hd, hold, hrec] at hx
          cases hx
    · simp only [guardDeleteNames, if_neg hd] at hx
      have h2 := ih a hx
      rw [List.cons_append]
      simp only [guardDeleteNames, if_neg hd]
      exact h2

theorem guardDeleteNames_not_errored (cs : List Change) :
    ∀ e, guardDeleteNames cs ≠ .errored e := by
  induction cs with
  | nil =>
    intro e h
    cases h
  | cons ch rest ih =>
    intro e h
    by_cases hd : ch.action = .delete
    · cases hold : ch.oldLocalDirent with
      | none =>
        simp only [guardDeleteNames, if_pos hd, hold] at h
        cases h
      | some ld =>
        cases hrec : guardDeleteNames rest with
        | ok ns2 =>
          simp only [guardDeleteNames, if_pos hd, hold, hrec] at h
          cases h
        | errored e2 =>
          simp only [guardDeleteNames, if_pos hd, hold, hrec] at h
          exact ih e2 hrec
        | crashed =>
          simp only [guardDeleteNames, if_pos hd, hold, hrec] at h
          cases h
        | hung =>
          simp only [guardDeleteNames, if_pos hd, hold, hrec] at h
          cases h
    · simp only [guardDeleteNames, if_neg hd] at h
      exact ih e h

theorem guardDeleteNames_not_hung (cs : List Change) :
    guardDeleteNames cs ≠ .hung := by
  induction cs with
  | nil =>
    intro h
    cases h
  | cons ch rest ih =>
    intro h
    by_cases hd : ch.action = .delete
    · cases hold : ch.oldLocalDirent with
      | none =>
        simp only [guardDeleteNames, if_pos hd, hold] at h
        cases h
      | some ld =>
        cases hrec : guardDeleteNames rest with
        | ok ns2 =>
          simp only [guardDeleteNames, if_pos hd, hold, hrec] at h
          cases h
        | errored e2 =>
          simp only [guardDeleteNames, if_pos hd, hold, hrec] at h
          cases h
        | crashed =>
          simp only [guardDeleteNames, if_pos hd, hold, hrec] at h
          cases h
        | hung =>
          simp only [guardDeleteNames, if_pos hd, hold, hrec] at h
          exact ih hrec
    · simp only [guardDeleteNames, if_neg hd] at h
      exact ih h

theorem guardStep_err_inv (cfg : WatcherOpts) (oldState : Option Snapshot)
    (changes : List Change) (pu : Option (List String)) (e : PollErr)
    (h : firstRunSyncDeleteGuardStep cfg oldState changes pu = .errored e) :
    ∃ sd pus deleteNames, cfg.syncDir = some sd ∧ cfg.syncDelete = true
      ∧ oldState = none ∧ cfg.disableSyncDeleteGuard = false
      ∧ pu = some pus ∧ pus = []
      ∧ guardDeleteNames changes = .ok deleteNames ∧ deleteNames ≠ []
      ∧ e = .guardTripped sd cfg.dir deleteNames := by
  unfold firstRunSyncDeleteGuardStep at h
  by_cases hskip : cfg.syncDir = none ∨ cfg.syncDelete = false
      ∨ oldState.isSome ∨ cfg.disableSyncDeleteGuard
  · rw [if_pos hskip] at h
    cases h
  · rw [if_neg hskip] at h
    push_neg at hskip
    obtain ⟨hsd0, hdel0, hsome0, hdg0⟩ := hskip
    have hdel : cfg.syncDelete = true := by
      cases hb : cfg.syncDelete
      · exact absurd hb hdel0
      · rfl
    have hold : oldState = none := by
      cases oldState with
      | none => rfl
      | some s => exact absurd rfl hsome0
    have hdg : cfg.disableSyncDeleteGuard = false := by
      cases hb : cfg.disableSyncDeleteGuard
      · rfl
      · exact absurd hb hdg0
    cases pu with
    | none => cases h
    | some pus =>
      cases hsd : cfg.syncDir with
      | none => exact absurd hsd hsd0
      | some sd =>
        cases hgn : guardDeleteNames changes with
        | ok dn =>
          simp only [hsd, hgn] at h
          by_cases hcond : dn ≠ [] ∧ pus = []
          · rw [if_pos hcond] at h
            refine ⟨sd, pus, dn, rfl, hdel, hold, hdg, rfl, hcond.2, rfl,
              hcond.1, (StepRes.errored.inj h).symm⟩
          · rw [if_neg hcond] at h
            cases h
        | errored e2 =>
          exact absurd hgn (guardDeleteNames_not_errored changes e2)
        | crashed =>
          simp only [hsd, hgn] at h
          cases h
        | hung =>
          exact absurd hgn (guardDeleteNames_not_hung changes)

theorem saveStateStep_spec (cfg : WatcherOpts) (env : PollEnv)
    (w : WatcherVars) (ns : Snapshot) :
    (saveStateStep cfg env w ns).2.state = some ns
    ∧ ((saveStateStep cfg env w ns).1 = [.commitState ns]
        ∨ (saveStateStep cfg env w ns).1
            = [.commitState ns, .scheduleNextPoll cfg.intervalMs]) := by
  unfold saveStateStep
  by_cases hp : w.paused
  · simp [hp]
  · simp [hp]

/-- Master lemma for crashing or hanging polls: the watcher fields are
untouched and every recorded effect is one of the pre-commit step
effects (in particular no state commit and no timer arming). -/
theorem pollPipeline_crash_hung_master (cfg : WatcherOpts) (env : PollEnv)
    (w : WatcherVars)
    (h : (pollPipeline cfg env w).outcome = .crashed
        ∨ (pollPipeline cfg env w).outcome = .hung) :
    (pollPipeline cfg env w).vars = w
    ∧ (∀ e2 ∈ (pollPipeline cfg env w).effects,
        isReadMirrorEff e2 = true ∨ isInfoEff e2 = true
        ∨ isSyncEff e2 = true ∨ isDeliveryEff e2 = true) := by
  unfold pollPipeline at h ⊢
  cases hls : listDirStep cfg env with
  | error e1 =>
    simp only [hls] at h
    rcases h with h | h <;> cases h
  | ok pr =>
    obtain ⟨dirents, newState⟩ := pr
    cases hfr : firstRunLocalDirentsStep cfg env with
    | mk r1 effs1 =>
      have heffs1 : ∀ e2 ∈ effs1, isReadMirrorEff e2 = true := by
        intro e2 he2
        exact firstRun_effs_shape cfg env e2 (by rw [hfr]; exact he2)
      cases r1 with
      | error e1 =>
        simp only [hls, hfr] at h
        rcases h with h | h <;> cases h
      | ok lds =>
        cases hch : changesFromDirentsStep cfg env w.state dirents
            newState lds with
        | mk r2 effs2 =>
          have heffs2 : ∀ e2 ∈ effs2, isInfoEff e2 = true := by
            intro e2 he2
            exact changesStep_effs_shape cfg env w.state dirents newState
              lds e2 (by rw [hch]; exact he2)
          have hmem12 : ∀ e2 ∈ effs1 ++ effs2,
              isReadMirrorEff e2 = true ∨ isInfoEff e2 = true
              ∨ isSyncEff e2 = true ∨ isDeliveryEff e2 = true := by
            intro e2 he2
            rcases List.mem_append.mp he2 with h1 | h1
            · exact Or.inl (heffs1 e2 h1)
            · exact Or.inr (Or.inl (heffs2 e2 h1))
          cases r2 with
          | errored e1 =>
            simp only [hls, hfr, hch] at h
            rcases h with h | h <;> cases h
          | crashed =>
            simp only [hls, hfr, hch] at h ⊢
            exact ⟨trivial, hmem12⟩
          | hung =>
            simp only [hls, hfr, hch] at h ⊢
            exact ⟨trivial, hmem12⟩
          | ok pr2 =>
            obtain ⟨changes, pu⟩ := pr2
            cases hgd : firstRunSyncDeleteGuardStep cfg w.state changes pu with
            | errored e1 =>
              simp only [hls, hfr, hch, hgd] at h
              rcases h with h | h <;> cases h
            | crashed =>
              simp only [hls, hfr, hch, hgd] at h ⊢
              exact ⟨trivial, hmem12⟩
            | hung =>
              simp only [hls, hfr, hch, hgd] at h ⊢
              exact ⟨trivial, hmem12⟩
            | ok u =>
              cases hsy : syncChangesStep cfg env changes with
              | mk r3 effs3 =>
                have heffs3 : ∀ e2 ∈ effs3, isSyncEff e2 = true := by
                  intro e2 he2
                  exact syncStep_effs_shape cfg env changes e2
                    (by rw [hsy]; exact he2)
                have hmem123 : ∀ e2 ∈ effs1 ++ effs2 ++ effs3,
                    isReadMirrorEff e2 = true ∨ isInfoEff e2 = true
                    ∨ isSyncEff e2 = true ∨ isDeliveryEff e2 = true := by
                  intro e2 he2
                  rcases List.mem_append.mp he2 with h1 | h1
                  · exact hmem12 e2 h1
                  · exact Or.inr (Or.inr (Or.inl (heffs3 e2 h1)))
                cases r3 with
                | errored e1 =>
                  simp only [hls, hfr, hch, hgd, hsy] at h
                  rcases h with h | h <;> cases h
                | crashed =>
                  simp only [hls, hfr, hch, hgd, hsy] at h ⊢
                  exact ⟨trivial, hmem123⟩
                | hung =>
                  simp only [hls, hfr, hch, hgd, hsy] at h ⊢
                  exact ⟨trivial, hmem123⟩
                | ok u2 =>
                  cases hpe : pushEventsStep cfg env w changes with
                  | mk r4 pr4 =>
                    obtain ⟨effs4, w4⟩ := pr4
                    have heffs4 : ∀ e2 ∈ effs4, isDeliveryEff e2 = true := by
                      intro e2 he2
                      exact pushEvents_effs_shape cfg env w changes e2
                        (by rw [hpe]; exact he2)
                    have hmem1234 : ∀ e2 ∈ effs1 ++ effs2 ++ effs3 ++ effs4,
                        isReadMirrorEff e2 = true ∨ isInfoEff e2 = true
                        ∨ isSyncEff e2 = true ∨ isDeliveryEff e2 = true := by
                      intro e2 he2
                      rcases List.mem_append.mp he2 with h1 | h1
                      · exact hmem123 e2 h1
                      · exact Or.inr (Or.inr (Or.inr (heffs4 e2 h1)))
                    cases r4 with
                    | errored e1 =>
                      exact absurd (by rw [hpe])
                        (pushEvents_not_errored cfg env w changes e1)
                    | crashed =>
                      simp only [hls, hfr, hch, hgd, hsy, hpe] at h ⊢
                      exact ⟨trivial, hmem1234⟩
                    | hung =>
                      simp only [hls, hfr, hch, hgd, hsy, hpe] at h ⊢
                      exact ⟨trivial, hmem1234⟩
                    | ok u3 =>
                      cases hsv : saveStateStep cfg env w4 newState with
                      | mk effs5 w5 =>
                        simp only [hls, hfr, hch, hgd, hsy, hpe, hsv] at h
                        rcases h with h | h <;> cases h

/-- Master lemma for successful polls: the poll committed exactly the
snapshot built from the filtered listing, and the commit is the last
pipeline effect, optionally followed only by the arming of the next poll
timer. -/
theorem pollPipeline_ok_master (cfg : WatcherOpts) (env : PollEnv)
    (w : WatcherVars)
    (h : (pollPipeline cfg env w).outcome = .ok ()) :
    ∃ dirents ns, listDirStep cfg env = .ok (dirents, ns)
      ∧ (pollPipeline cfg env w).vars.state = some ns
      ∧ ∃ pre, (pollPipeline cfg env w).effects = pre ++ [.commitState ns]
          ∨ (pollPipeline cfg env w).effects
              = pre ++ [.commitState ns, .scheduleNextPoll cfg.intervalMs] := by
  unfold pollPipeline at h ⊢
  cases hls : listDirStep cfg env with
  | error e1 =>
    simp only [hls] at h
    cases h
  | ok pr =>
    obtain ⟨dirents, newState⟩ := pr
    cases hfr : firstRunLocalDirentsStep cfg env with
    | mk r1 effs1 =>
      cases r1 with
      | error e1 =>
        simp only [hls, hfr] at h
        cases h
      | ok lds =>
        cases hch : changesFromDirentsStep cfg env w.state dirents
            newState lds with
        | mk r2 effs2 =>
          cases r2 with
          | errored e1 =>
            simp only [hls, hfr, hch] at h
            cases h
          | crashed =>
            simp only [hls, hfr, hch] at h
            cases h
          | hung =>
            simp only [hls, hfr, hch] at h
            cases h
          | ok pr2 =>
            obtain ⟨changes, pu⟩ := pr2
            cases hgd : firstRunSyncDeleteGuardStep cfg w.state changes pu with
            | errored e1 =>
              simp only [hls, hfr, hch, hgd] at h
              cases h
            | crashed =>
              simp only [hls, hfr, hch, hgd] at h
              cases h
            | hung =>
              simp only [hls, hfr, hch, hgd] at h
              cases h
            | ok u =>
              cases hsy : syncChangesStep cfg env changes with
              | mk r3 effs3 =>
                cases r3 with
                | errored e1 =>
                  simp only [hls, hfr, hch, hgd, hsy] at h
                  cases h
                | crashed =>
                  simp only [hls, hfr, hch, hgd, hsy] at h
                  cases h
                | hung =>
                  simp only [hls, hfr, hch, hgd, hsy] at h
                  cases h
                | ok u2 =>
                  cases hpe : pushEventsStep cfg env w changes with
                  | mk r4 pr4 =>
                    obtain ⟨effs4, w4⟩ := pr4
                    cases r4 with
                    | errored e1 =>
                      exact absurd (by rw [hpe])
                        (pushEvents_not_errored cfg env w changes e1)
                    | crashed =>
                      simp only [hls, hfr, hch, hgd, hsy, hpe] at h
                      cases h
                    | hung =>
                      simp only [hls, hfr, hch, hgd, hsy, hpe] at h
                      cases h
                    | ok u3 =>
                      cases hsv : saveStateStep cfg env w4 newState with
                      | mk effs5 w5 =>
                        have hspec := saveStateStep_spec cfg env w4 newState
                        rw [hsv] at hspec
                        simp only [hls, hfr, hch, hgd, hsy, hpe, hsv] at h ⊢
                        refine ⟨dirents, newState, rfl, hspec.1, ?_⟩
                        refine ⟨effs1 ++ effs2 ++ effs3 ++ effs4, ?_⟩
                        rcases hspec.2 with h5 | h5
                        · left
                          rw [show effs5 = [Eff.commitState newState] from h5]
                        · right
                          rw [show effs5
                            = [Eff.commitState newState,
                               Eff.scheduleNextPoll cfg.intervalMs] from h5]

/-- Claim C4 counterexample: a poll whose listing fails with a 500 emits
the error and nothing else — no next-poll timer is armed (no
`scheduleNextPoll` effect, watcher fields unchanged), whereas the same
watcher's successful poll does arm one. This refutes the claim that an
error does not prevent a subsequent poll from being scheduled per the
interval: after a failed poll nothing reschedules. -/
theorem C4_counterexample :
    (pollPipeline cfgPlain envLs500 wFresh)
      = { outcome := .errored (.lsErr 500),
          effects := [.emitError (.lsErr 500)], vars := wFresh }
    ∧ Eff.scheduleNextPoll 5000 ∉ (pollPipeline cfgPlain envLs500 wFresh).effects
    ∧ Eff.scheduleNextPoll 5000 ∈ (pollPipeline cfgPlain envLsA wFresh).effects := by
  exact ⟨by decide, by decide, by decide⟩

/-- Claim C4 (amended): every poll that ends in an error reports the
error on the consumer's error channel as its final effect, without
throwing out of the scheduler loop; however it does not schedule a
subsequent poll: no `scheduleNextPoll` effect occurs and the watcher
fields (including the last-poll time the next scheduling decision would
use) are left untouched, so a further poll happens only through an
external `poke()` or resume. -/
theorem C4_error_poll_amended : ∀ (cfg : WatcherOpts) (env : PollEnv)
    (w : WatcherVars) (e : PollErr),
    (pollPipeline cfg env w).outcome = .errored e →
    (pollPipeline cfg env w).effects.getLast? = some (.emitError e)
    ∧ (∀ d, Eff.scheduleNextPoll d ∉ (pollPipeline cfg env w).effects)
    ∧ (pollPipeline cfg env w).vars = w := by
  intro cfg env w e h
  obtain ⟨hvars, hlast, hshape⟩ := pollPipeline_err_master cfg env w e h
  refine ⟨hlast, ?_, hvars⟩
  intro d hd
  rcases hshape (Eff.scheduleNextPoll d) hd with h1 | h1 | h1 | h1 | h1
  · cases h1
  · cases h1
  · cases h1
  · cases h1
  · cases h1

/-- Witness for C4 (amended): the conclusion evaluated on the 500-listing
poll. -/
theorem C4_witness :
    (pollPipeline cfgPlain envLs500 wFresh).effects.getLast?
      = some (.emitError (.lsErr 500)) :=
  (C4_error_poll_amended cfgPlain envLs500 wFresh (.lsErr 500) (by decide)).1

/-- Claim C7: the committed snapshot is replaced only in the final
pipeline step of a poll, after the guard and sync steps have succeeded:
a poll that does not succeed (error, crash or hang at any earlier step)
leaves the committed snapshot exactly as it was and performs no commit
effect, while a successful poll commits exactly the snapshot built from
the filtered listing, as the last effect apart from the optional arming
of the next poll timer. -/
theorem C7_snapshot_commit : ∀ (cfg : WatcherOpts) (env : PollEnv)
    (w : WatcherVars),
    ((pollPipeline cfg env w).outcome ≠ .ok () →
      (pollPipeline cfg env w).vars.state = w.state
      ∧ ∀ s, Eff.commitState s ∉ (pollPipeline cfg env w).effects)
    ∧ ((pollPipeline cfg env w).outcome = .ok () →
      ∃ dirents ns, listDirStep cfg env = .ok (dirents, ns)
        ∧ (pollPipeline cfg env w).vars.state = some ns
        ∧ ∃ pre, (pollPipeline cfg env w).effects = pre ++ [.commitState ns]
            ∨ (pollPipeline cfg env w).effects
                = pre ++ [.commitState ns, .scheduleNextPoll cfg.intervalMs]) := by
  intro cfg env w
  constructor
  · intro hne
    cases hout : (pollPipeline cfg env w).outcome with
    | ok u =>
      cases u
      exact absurd hout hne
    | errored e =>
      obtain ⟨hvars, _, hshape⟩ := pollPipeline_err_master cfg env w e hout
      refine ⟨by rw [hvars], ?_⟩
      intro s hs
      rcases hshape (Eff.commitState s) hs with h1 | h1 | h1 | h1 | h1
      · cases h1
      · cases h1
      · cases h1
      · cases h1
      · cases h1
    | crashed =>
      obtain ⟨hvars, hshape⟩ :=
        pollPipeline_crash_hung_master cfg env w (Or.inl hout)
      refine ⟨by rw [hvars], ?_⟩
      intro s hs
      rcases hshape (Eff.commitState s) hs with h1 | h1 | h1 | h1
      · cases h1
      · cases h1
      · cases h1
      · cases h1
    | hung =>
      obtain ⟨hvars, hshape⟩ :=
        pollPipeline_crash_hung_master cfg env w (Or.inr hout)
      refine ⟨by rw [hvars], ?_⟩
      intro s hs
      rcases hshape (Eff.commitState s) hs with h1 | h1 | h1 | h1
      · cases h1
      · cases h1
      · cases h1
      · cases h1
  · exact pollPipeline_ok_master cfg env w

/-- Witness for C7: a failing poll leaves the committed snapshot of the
`a.txt` watcher untouched. -/
theorem C7_witness :
    (pollPipeline cfgMirror envLs500 wWithSnap).vars.state = wWithSnap.state :=
  ((C7_snapshot_commit cfgMirror envLs500 wWithSnap).1 (by decide)).1

/-- Claim C2: on the bootstrap reconciliation poll (mirror configured,
destructive deletion enabled, no prior in-memory snapshot, guard not
disabled), whenever the computed delete set is non-empty and the
possible-update set is empty, the whole poll aborts with the
sync-delete-guard configuration error: no file is removed or downloaded,
no event group is pushed or buffered, no snapshot is committed, and the
watcher fields are untouched. Conversely, the guard error occurs only
under exactly those circumstances — in particular never once a committed
snapshot exists, and never when the delete set is empty or some name
matched (the poll then proceeds past the guard). -/
theorem C2_sync_delete_guard :
    (∀ (cfg : WatcherOpts) (env : PollEnv) (w : WatcherVars) (sd : String)
        (dirents : List Dirent) (newState : Snapshot)
        (lds : List LocalDirent) (effs1 : List Eff),
      cfg.syncDir = some sd → cfg.syncDelete = true →
      cfg.disableSyncDeleteGuard = false → w.state = none →
      listDirStep cfg env = .ok (dirents, newState) →
      firstRunLocalDirentsStep cfg env = (.ok lds, effs1) →
      bootstrapDeletes lds newState ≠ [] →
      bootstrapPossibleUpdates lds dirents = [] →
      (∃ gns, (pollPipeline cfg env w).outcome
          = .errored (.guardTripped sd cfg.dir gns) ∧ gns ≠ [])
      ∧ (pollPipeline cfg env w).vars = w
      ∧ (∀ p, Eff.rm p ∉ (pollPipeline cfg env w).effects)
      ∧ (∀ p q, Eff.download p q ∉ (pollPipeline cfg env w).effects)
      ∧ (∀ g, Eff.pushGroup g ∉ (pollPipeline cfg env w).effects)
      ∧ (∀ g, Eff.bufferGroup g ∉ (pollPipeline cfg env w).effects)
      ∧ (∀ s, Eff.commitState s ∉ (pollPipeline cfg env w).effects))
    ∧ (∀ (cfg : WatcherOpts) (env : PollEnv) (w : WatcherVars) (sd dir : String)
        (gns : List String),
        (pollPipeline cfg env w).outcome
          = .errored (.guardTripped sd dir gns) →
        w.state = none ∧ cfg.syncDelete = true
        ∧ cfg.disableSyncDeleteGuard = false ∧ cfg.syncDir = some sd
        ∧ ∃ dirents newState lds effs1,
            listDirStep cfg env = .ok (dirents, newState)
            ∧ firstRunLocalDirentsStep cfg env = (.ok lds, effs1)
            ∧ bootstrapDeletes lds newState ≠ []
            ∧ bootstrapPossibleUpdates lds dirents = []) := by
  constructor
  · intro cfg env w sd dirents newState lds effs1 hsd hdel hdg hstate hls hfr
      hdne hpue
    have hch : changesFromDirentsStep cfg env w.state dirents newState lds
        = (.ok (bootstrapDeletes lds newState
            ++ bootstrapCreates lds dirents, some []), []) := by
      simp only [changesFromDirentsStep, hstate, hsd, hpue]
      simp [checkPossibleUpdates]
    have hnames : guardDeleteNames (bootstrapDeletes lds newState
        ++ bootstrapCreates lds dirents)
        = .ok ((lds.filter (fun ld => !(alistHas newState ld.name))).map
            (fun ld => ld.name)) := by
      have h1 : guardDeleteNames (bootstrapDeletes lds newState)
          = .ok ((lds.filter (fun ld => !(alistHas newState ld.name))).map
              (fun ld => ld.name)) := by
        rw [bootstrapDeletes_eq]
        exact guardDeleteNames_map_deletes _
      have h2 : guardDeleteNames (bootstrapCreates lds dirents) = .ok [] := by
        apply guardDeleteNames_no_deletes
        intro c hc
        rw [bootstrapCreates_actions lds dirents c hc]
        intro hcon
        cases hcon
      have h3 := guardDeleteNames_append _ _ [] h2 _ h1
      simpa using h3
    have hfilterne :
        lds.filter (fun ld => !(alistHas newState ld.name)) ≠ [] := by
      intro hcon
      apply hdne
      rw [bootstrapDeletes_eq, hcon]
      rfl
    have hnamesne :
        (lds.filter (fun ld => !(alistHas newState ld.name))).map
          (fun ld => ld.name) ≠ [] := by
      intro hcon
      exact hfilterne (List.map_eq_nil_iff.mp hcon)
    have hgd : firstRunSyncDeleteGuardStep cfg w.state
        (bootstrapDeletes lds newState ++ bootstrapCreates lds dirents)
        (some [])
        = .errored (.guardTripped sd cfg.dir
            ((lds.filter (fun ld => !(alistHas newState ld.name))).map
              (fun ld => ld.name))) := by
      simp only [firstRunSyncDeleteGuardStep, hsd, hdel, hstate, hdg, hnames]
      simp [hnamesne]
    have heffs1 : ∀ e2 ∈ effs1, isReadMirrorEff e2 = true := by
      intro e2 he2
      exact firstRun_effs_shape cfg env e2 (by rw [hfr]; exact he2)
    refine ⟨⟨(lds.filter (fun ld => !(alistHas newState ld.name))).map
        (fun ld => ld.name), ?_, hnamesne⟩, ?_, ?_, ?_, ?_, ?_, ?_⟩
    · simp only [pollPipeline, hls, hfr, hch, hgd]
    · simp only [pollPipeline, hls, hfr, hch, hgd]
    · intro p hp
      simp only [pollPipeline, hls, hfr, hch, hgd] at hp
      rcases List.mem_append.mp hp with h1 | h1
      · rcases List.mem_append.mp h1 with h2 | h2
        · cases heffs1 _ h2
        · cases h2
      · cases List.mem_singleton.mp h1
    · intro p q hp
      simp only [pollPipeline, hls, hfr, hch, hgd] at hp
      rcases List.mem_append.mp hp with h1 | h1
      · rcases List.mem_append.mp h1 with h2 | h2
        · cases heffs1 _ h2
        · cases h2
      · cases List.mem_singleton.mp h1
    · intro g hp
      simp only [pollPipeline, hls, hfr, hch, hgd] at hp
      rcases List.mem_append.mp hp with h1 | h1
      · rcases List.mem_append.mp h1 with h2 | h2
        · cases heffs1 _ h2
        · cases h2
      · cases List.mem_singleton.mp h1
    · intro g hp
      simp only [pollPipeline, hls, hfr, hch, hgd] at hp
      rcases List.mem_append.mp hp with h1 | h1
      · rcases List.mem_append.mp h1 with h2 | h2
        · cases heffs1 _ h2
        · cases h2
      · cases List.mem_singleton.mp h1
    · intro s hp
      simp only [pollPipeline, hls, hfr, hch, hgd] at hp
      rcases List.mem_append.mp hp with h1 | h1
      · rcases List.mem_append.mp h1 with h2 | h2
        · cases heffs1 _ h2
        · cases h2
      · cases List.mem_singleton.mp h1
  · intro cfg env w sd dir gns h
    unfold pollPipeline at h
    cases hls : listDirStep cfg env with
    | error e1 =>
      simp only [hls] at h
      obtain ⟨n, hn⟩ := listDir_err_shape cfg env e1 hls
      rw [hn] at h
      cases StepRes.errored.inj h
    | ok pr =>
      obtain ⟨dirents, newState⟩ := pr
      cases hfr : firstRunLocalDirentsStep cfg env with
      | mk r1 effs1 =>
        cases r1 with
        | error e1 =>
          simp only [hls, hfr] at h
          rcases firstRun_err_shape cfg env e1 (by rw [hfr]) with ⟨m, hm⟩ | ⟨m, hm⟩
          · rw [hm] at h
            cases StepRes.errored.inj h
          · rw [hm] at h
            cases StepRes.errored.inj h
        | ok lds =>
          cases hch : changesFromDirentsStep cfg env w.state dirents
              newState lds with
          | mk r2 effs2 =>
            cases r2 with
            | errored e1 =>
              simp only [hls, hfr, hch] at h
              obtain ⟨m, hm⟩ := changesStep_err_shape cfg env w.state dirents
                newState lds e1 (by rw [hch])
              rw [hm] at h
              cases StepRes.errored.inj h
            | crashed =>
              simp only [hls, hfr, hch] at h
              cases h
            | hung =>
              simp only [hls, hfr, hch] at h
              cases h
            | ok pr2 =>
              obtain ⟨changes, pu⟩ := pr2
              cases hgd : firstRunSyncDeleteGuardStep cfg w.state changes
                  pu with
              | errored e1 =>
                simp only [hls, hfr, hch, hgd] at h
                obtain ⟨sd2, pus, dn, hsd2, hdel2, hold2, hdg2, hpu2, hpusnil,
                  hgdn, hdnne, he1⟩ :=
                  guardStep_err_inv cfg w.state changes pu e1 hgd
                have he : e1 = .guardTripped sd dir gns := StepRes.errored.inj h
                rw [he] at he1
                injection he1 with ha hb hc
                subst ha
                subst hpusnil
                obtain ⟨upds, effsX, hchk, hcseq, hpueq⟩ :=
                  changesStep_bootstrap_shape cfg env dirents newState lds sd
                    changes pu hsd2 (by rw [hold2] at hch; rw [hch])
                have hbpu : bootstrapPossibleUpdates lds dirents = [] := by
                  rw [hpueq] at hpu2
                  exact Option.some.inj hpu2
                have hupds : upds = [] := by
                  rw [hbpu] at hchk
                  have h0 : (StepRes.ok ([] : List Change), ([] : List Eff))
                      = (StepRes.ok upds, effsX) := hchk
                  injection h0 with h1 h2
                  exact (StepRes.ok.inj h1).symm
                have hdelsne : bootstrapDeletes lds newState ≠ [] := by
                  intro hnil
                  rw [hcseq, hnil, hupds, List.nil_append, List.append_nil]
                    at hgdn
                  have hcr : guardDeleteNames (bootstrapCreates lds dirents)
                      = .ok [] := by
                    apply guardDeleteNames_no_deletes
                    intro c hc
                    rw [bootstrapCreates_actions lds dirents c hc]
                    intro hcon
                    cases hcon
                  rw [hcr] at hgdn
                  exact hdnne (StepRes.ok.inj hgdn).symm
                exact ⟨hold2, hdel2, hdg2, hsd2,
                  dirents, newState, lds, effs1, rfl, rfl, hdelsne, hbpu⟩
              | crashed =>
                simp only [hls, hfr, hch, hgd] at h
                cases h
              | hung =>
                simp only [hls, hfr, hch, hgd] at h
                cases h
              | ok u =>
                cases hsy : syncChangesStep cfg env changes with
                | mk r3 effs3 =>
                  cases r3 with
                  | errored e1 =>
                    simp only [hls, hfr, hch, hgd, hsy] at h
                    rcases syncStep_err_shape cfg env changes e1
                        (by rw [hsy]) with ⟨m, hm⟩ | ⟨m, hm⟩
                    · rw [hm] at h
                      cases StepRes.errored.inj h
                    · rw [hm] at h
                      cases StepRes.errored.inj h
                  | crashed =>
                    simp only [hls, hfr, hch, hgd, hsy] at h
                    cases h
                  | hung =>
                    simp only [hls, hfr, hch, hgd, hsy] at h
                    cases h
                  | ok u2 =>
                    cases hpe : pushEventsStep cfg env w changes with
                    | mk r4 pr4 =>
                      obtain ⟨effs4, w4⟩ := pr4
                      cases r4 with
                      | errored e1 =>
                        exact absurd (by rw [hpe])
                          (pushEvents_not_errored cfg env w changes e1)
                      | crashed =>
                        simp only [hls, hfr, hch, hgd, hsy, hpe] at h
                        cases h
                      | hung =>
                        simp only [hls, hfr, hch, hgd, hsy, hpe] at h
                        cases h
                      | ok u3 =>
                        cases hsv : saveStateStep cfg env w4 newState with
                        | mk effs5 w5 =>
                          simp only [hls, hfr, hch, hgd, hsy, hpe, hsv] at h
                          cases h

/-- Witness for C2: the guard scenario with remote entry `a` and three
unrelated mirror files `x`, `y`, `z` trips the guard. -/
theorem C2_witness :
    ∃ gns, (pollPipeline cfgGuard envGuard wFresh).outcome
        = .errored (.guardTripped "/m" cfgGuard.dir gns) ∧ gns ≠ [] :=
  ((C2_sync_delete_guard.1 cfgGuard envGuard wFresh "/m"
      [dA] [("a", dA)]
      [{ name := "x", path := "/m/x", stat := { size := 1, isDirectory := false } },
       { name := "y", path := "/m/y", stat := { size := 1, isDirectory := false } },
       { name := "z", path := "/m/z", stat := { size := 1, isDirectory := false } }]
      [.readMirrorDir "/m"]
      (by decide) (by decide) (by decide) (by decide) (by rfl) (by rfl)
      (by decide) (by decide))).1

/-- Claim C1 counterexample: the claim that no second poll pipeline
begins while an earlier poll's pipeline is in flight is false of the
code. From the freshly constructed watcher: a read resumes and queues an
immediate poll; the immediate fires and the first poll begins (its
listing call pending); `poke()` arrives and unconditionally queues
another immediate poll; that immediate fires — now two poll pipelines
are in flight at once, since neither `poke()` nor `_poll` checks for an
in-flight poll. -/
theorem C1_counterexample :
    ¬ ∀ (acts : List SchedAct) (s : SchedState),
        schedRun schedInit acts = some s → s.inFlight ≤ 1 := by
  intro hclaim
  have h2 := hclaim [.read true, .fireImmediate, .poke, .fireImmediate]
    { paused := false, timerField := false, timerPending := false,
      immediateQueued := 0, inFlight := 2 } (by decide)
  exact absurd h2 (by decide)

/-- Claim C1 (amended): a `poke()` by itself only cancels any pending
timer (nulling the `_pollTimeout` handle) and queues an immediate poll,
without starting a poll synchronously; but non-overlap is not enforced:
a scheduler state with two poll pipelines in flight at once is reachable,
because the queued poll starts regardless of an in-flight poll. -/
theorem C1_poke_amended :
    (∀ s : SchedState, schedStep s .poke
        = some { s with timerField := false, timerPending := false,
                        immediateQueued := s.immediateQueued + 1 })
    ∧ ∃ (acts : List SchedAct) (s : SchedState),
        schedRun schedInit acts = some s ∧ 2 ≤ s.inFlight := by
  refine ⟨fun s => rfl,
    [.read true, .fireImmediate, .poke, .fireImmediate],
    { paused := false, timerField := false, timerPending := false,
      immediateQueued := 0, inFlight := 2 }, by decide, by decide⟩

/-- Claim C6 (code bug): `_syncDirent` evaluated at the failing inputs.
When the download (`client.get`) fails, the step crashes with a
TypeError — the callback ignores its `err` argument and calls
`src.pipe` on undefined — so the temp path is not removed and no error
reaches the callback, contradicting the claim that any download failure
deletes the temp path and surfaces the error. A mid-download stream
failure hangs the step, leaving the partial temp file in place (though,
as claimed, nothing is promoted: no rename occurs). Only the
rename-failure path behaves as the claim describes: the temp path is
removed and the original error is surfaced. -/
theorem C6_download_failure_code_bug :
    syncDirent envGetErr "/m" dA
      = (.crashed, [.mkdirpCall "/m", .createTmp "/m/.a.mwatchdirpart"])
    ∧ syncDirent envStreamStall "/m" dA
      = (.hung, [.mkdirpCall "/m", .createTmp "/m/.a.mwatchdirpart",
          .download "/r/a" "/m/.a.mwatchdirpart"])
    ∧ syncDirent envRenameErr "/m" dA
      = (.errored (.syncErr "eperm"),
         [.mkdirpCall "/m", .createTmp "/m/.a.mwatchdirpart",
          .download "/r/a" "/m/.a.mwatchdirpart",
          .renameCall "/m/.a.mwatchdirpart" "/m/a",
          .rm "/m/.a.mwatchdirpart"]) := by
  exact ⟨by decide, by decide, by decide⟩

/-- Claim C8 (code bug): evaluation at the failing input. With a mirror
configured and a committed prior snapshot, a poll still reads the mirror
directory, because the step's guard tests `self.oldState` — a property
never assigned on the watcher (the poll context holds `oldState`) — so
it runs on every poll, contradicting the claim (and the source's own
comment) that it is performed only when no prior snapshot exists. The
other parts of the claim hold at these inputs: with the prior snapshot,
the local dirents are ignored and the unchanged listing yields a clean
poll; and on a true first poll a non-existent mirror directory (ENOENT)
is treated as empty rather than as an error. -/
theorem C8_first_run_code_bug :
    Eff.readMirrorDir "/local/mirror"
        ∈ (pollPipeline cfgMirror envMirrorRead wWithSnap).effects
    ∧ (pollPipeline cfgMirror envMirrorRead wWithSnap).outcome = .ok ()
    ∧ (pollPipeline cfgMirror { envMirrorRead with readdir := .enoent }
        wFreshPaused).outcome = .ok () := by
  exact ⟨by decide, by decide, by decide⟩

/-- Claim C10 (code bug): evaluation at the failing input. After a
completed first poll whose snapshot holds `a.txt`, a 404 listing makes
the poll proceed with an empty snapshot: a delete event for `a.txt` is
produced, the empty snapshot is committed, and the guard does not
intervene. But the claimed removal of the mirrored local file is wrong:
with `syncDir = /local/mirror` and `syncDelete`, the code rimrafs
`oldDirent.parent + '/' + name` — the remote Manta path string
`/user/stor/watched/a.txt` — and never touches the mirror path
`/local/mirror/a.txt`. -/
theorem C10_not_found_code_bug :
    (pollPipeline cfgNotFound envNotFound wWithSnap).outcome = .ok ()
    ∧ (pollPipeline cfgNotFound envNotFound wWithSnap).vars.state = some []
    ∧ Eff.rm "/user/stor/watched/a.txt"
        ∈ (pollPipeline cfgNotFound envNotFound wWithSnap).effects
    ∧ Eff.rm "/local/mirror/a.txt"
        ∉ (pollPipeline cfgNotFound envNotFound wWithSnap).effects
    ∧ Eff.bufferGroup [evDelAtxt]
        ∈ (pollPipeline cfgNotFound envNotFound wWithSnap).effects
    ∧ (∀ sd dir gns,
        (pollPipeline cfgNotFound envNotFound wWithSnap).outcome
          ≠ .errored (.guardTripped sd dir gns)) := by
  refine ⟨by decide, by decide, by decide, by decide, by decide, ?_⟩
  intro sd dir gns hcon
  have hok : (pollPipeline cfgNotFound envNotFound wWithSnap).outcome
      = .ok () := by decide
  rw [hok] at hcon
  cases hcon

/-
Flow-control lemmas for the backpressure buffer.
-/

theorem flushLoop_partition (bs : List EventGroup) :
    ∀ accepts : List Bool,
      (flushLoop bs accepts).1 ++ (flushLoop bs accepts).2.1 = bs := by
  induction bs with
  | nil => intro accepts; rfl
  | cons g rest ih =>
    intro accepts
    by_cases ha : accepts.headD true
    · simp only [flushLoop, if_pos ha]
      cases hf : flushLoop rest accepts.tail with
      | mk d pr =>
        have hih := ih accepts.tail
        rw [hf] at hih
        simp only [List.cons_append]
        rw [show d ++ pr.1 = rest from hih]
    · simp only [flushLoop, if_neg ha]
      rfl

theorem flushLoop_full (bs : List EventGroup) :
    ∀ accepts : List Bool, (flushLoop bs accepts).2.2 = false →
      (flushLoop bs accepts).2.1 = [] := by
  induction bs with
  | nil => intro accepts _; rfl
  | cons g rest ih =>
    intro accepts h
    by_cases ha : accepts.headD true
    · simp only [flushLoop, if_pos ha] at h ⊢
      cases hf : flushLoop rest accepts.tail with
      | mk d pr =>
        rw [hf] at h
        have := ih accepts.tail
        rw [hf] at this
        exact this h
    · simp only [flushLoop, if_neg ha] at h
      cases h

theorem flowRun_invariant (ops : List FlowOp) :
    ∀ s : FlowState, (s.paused = false → s.buffer = []) →
      ((flowRun s ops).delivered ++ (flowRun s ops).buffer
        = s.delivered ++ s.buffer ++ producedGroups ops)
      ∧ ((flowRun s ops).paused = false → (flowRun s ops).buffer = []) := by
  induction ops with
  | nil =>
    intro s hs
    exact ⟨by simp [flowRun, producedGroups], hs⟩
  | cons op rest ih =>
    intro s hs
    cases op with
    | read accepts =>
      have hstep : (resumeFlow s accepts).delivered
            ++ (resumeFlow s accepts).buffer = s.delivered ++ s.buffer
          ∧ ((resumeFlow s accepts).paused = false →
              (resumeFlow s accepts).buffer = []) := by
        by_cases hp : s.paused
        · cases hf : flushLoop s.buffer accepts with
          | mk d pr =>
            cases pr with
            | mk r st =>
              have hpart : d ++ r = s.buffer := by
                have h1 := flushLoop_partition s.buffer accepts
                rw [hf] at h1
                exact h1
              cases st with
              | true =>
                constructor
                · simp [resumeFlow, hp, hf, List.append_assoc, hpart]
                · intro hcon
                  simp [resumeFlow, hp, hf] at hcon
              | false =>
                have hr : r = [] := by
                  have h2 := flushLoop_full s.buffer accepts
                  rw [hf] at h2
                  exact h2 rfl
                constructor
                · simp [resumeFlow, hp, hf, List.append_assoc, hpart]
                · intro _
                  simp [resumeFlow, hp, hf, hr]
        · have hpb : s.paused = false := by
            cases hb : s.paused
            · rfl
            · exact absurd hb hp
          constructor
          · simp [resumeFlow, hpb]
          · intro _
            have : resumeFlow s accepts = s := by
              simp [resumeFlow, hpb]
            rw [this]
            exact hs hpb
      obtain ⟨hrun, hpause⟩ :=
        ih (flowStep s (.read accepts)) (by exact hstep.2)
      constructor
      · rw [show flowRun s (.read accepts :: rest)
            = flowRun (flowStep s (.read accepts)) rest from rfl, hrun]
        rw [show flowStep s (.read accepts) = resumeFlow s accepts from rfl]
        rw [hstep.1]
        rfl
      · exact hpause
    | produce g accept =>
      have hstep : (produceFlow s g accept).delivered
            ++ (produceFlow s g accept).buffer
              = s.delivered ++ s.buffer ++ [g]
          ∧ ((produceFlow s g accept).paused = false →
              (produceFlow s g accept).buffer = []) := by
        by_cases hp : s.paused
        · constructor
          · simp [produceFlow, hp, List.append_assoc]
          · intro hcon
            simp [produceFlow, hp] at hcon
        · have hpb : s.paused = false := by
            cases hb : s.paused
            · rfl
            · exact absurd hb hp
          have hbuf : s.buffer = [] := hs hpb
          by_cases hacc : accept
          · constructor
            · simp [produceFlow, hpb, hacc, hbuf]
            · intro _
              simp [produceFlow, hpb, hacc, hbuf]
          · have haccb : accept = false := by
              cases hb : accept
              · rfl
              · exact absurd hb hacc
            constructor
            · simp [produceFlow, hpb, haccb, hbuf]
            · intro _
              simp [produceFlow, hpb, haccb, hbuf]
      obtain ⟨hrun, hpause⟩ :=
        ih (flowStep s (.produce g accept)) (by exact hstep.2)
      constructor
      · rw [show flowRun s (.produce g accept :: rest)
            = flowRun (flowStep s (.produce g accept)) rest from rfl, hrun]
        rw [show flowStep s (.produce g accept)
            = produceFlow s g accept from rfl]
        rw [hstep.1]
        rw [show producedGroups (.produce g accept :: rest)
            = g :: producedGroups rest from rfl]
        simp
      · exact hpause

/-- Claim C9: across any sequence of flow-control interactions starting
from the constructed watcher, the groups delivered to the consumer
followed by the groups still buffered are exactly the produced groups in
production order — so no group is dropped, reordered, or delivered
twice, and delivery is strictly FIFO; and when the consumer applies
backpressure mid-flush, `_resume` delivers exactly the flushed prefix,
keeps the remainder queued, and returns the watcher to paused with the
poll timer cleared (not re-armed). -/
theorem C9_backpressure_fifo :
    (∀ ops : List FlowOp,
      (flowRun flowInit ops).delivered ++ (flowRun flowInit ops).buffer
        = producedGroups ops)
    ∧ (∀ (s : FlowState) (accepts : List Bool) (d r : List EventGroup),
        s.paused = true → flushLoop s.buffer accepts = (d, r, true) →
        resumeFlow s accepts
          = { paused := true, timerField := false, buffer := r,
              delivered := s.delivered ++ d }) := by
  constructor
  · intro ops
    have := (flowRun_invariant ops flowInit (by intro h; rfl)).1
    simpa [flowInit] using this
  · intro s accepts d r hp hf
    simp [resumeFlow, hp, hf]

/-- Witness for C9: a paused watcher with two buffered groups resumed
against a consumer that refuses after the first push delivers the first
group, keeps the second queued, and re-pauses with the timer cleared. -/
theorem C9_witness :
    resumeFlow flowTwoBuffered [false]
      = { paused := true, timerField := false, buffer := [[evB]],
          delivered := [[evA]] } :=
  C9_backpressure_fifo.2 flowTwoBuffered [false] [[evA]] [[evB]]
    (by decide) (by decide)

end MDW
